import Mathlib

/-!
Verification of core behaviours of the `magnum_opus.operarius` task
orchestration engine, shallowly embedded in Lean 4.

Conventions of the embedding:
* Python dicts with string keys become insertion-ordered association lists
  (`List (String × _)`); assignment to an existing key updates it in place,
  a new key is appended at the end, exactly as CPython dicts behave.
* Python `None` becomes `Option.none`.
* A Python function that may raise becomes a function into `Except String _`
  (the string is the exception message) or `Option _` for abstract callbacks
  supplied by a client (where `none` stands for "the callback raised").
* Unbounded recursion in the source is modelled with an explicit fuel
  parameter; the value `none` of `PRes` means the computation exhausted any
  given fuel bound, i.e. the source recursion does not terminate.
-/

set_option maxHeartbeats 1000000

namespace Operarius

/-- A simple model of a JSON-like spec dictionary (string keys and values). -/
abbrev SpecDict := List (String × String)

/-- One event record as constructed by `TaskProcessor.add_event`.  The wall
clock `EventTimestamp` field of the source is omitted (it is nondeterministic
I/O); the remaining fields are kept. -/
structure Event where
  eventLabel : String
  eventDescription : String
  taskId : String
deriving DecidableEq, Repr

/-- The heterogeneous values held by a `VariableStore`. -/
inductive Value where
  | vstr (s : String)
  | vevents (es : List Event)
  | vspec (sp : SpecDict)
deriving DecidableEq, Repr

/-- `VariableStore.variable_store`: an insertion-ordered dict. -/
abbrev VariableStore := List (String × Value)

/-- Dict lookup (first binding wins; keys are unique by construction). -/
def lookupVar (store : VariableStore) (name : String) : Option Value :=
  match store with
  | [] => none
  | (k, v) :: rest => if k == name then some v else lookupVar rest name

/-- Python `name in dict`. -/
def containsVar (store : VariableStore) (name : String) : Bool :=
  match store with
  | [] => false
  | (k, _) :: rest => k == name || containsVar rest name

/-- `VariableStore.add_variable`: dict assignment — updates an existing key in
place, otherwise appends the new binding. -/
def add_variable (store : VariableStore) (name : String) (value : Value) : VariableStore :=
  match store with
  | [] => [(name, value)]
  | (k, v) :: rest =>
    if k == name then (name, value) :: rest else (k, v) :: add_variable rest name value

/-- Removal of a binding, as done by `dict.pop`. -/
def removeVar (store : VariableStore) (name : String) : VariableStore :=
  match store with
  | [] => []
  | (k, v) :: rest => if k == name then rest else (k, v) :: removeVar rest name

/-- `VariableStore.get_variable`: raises when the name is absent, otherwise
returns the value (and, when `pop_item` is true, the store without it). -/
def get_variable (store : VariableStore) (name : String) (pop_item : Bool) :
    Except String (Value × VariableStore) :=
  match lookupVar store name with
  | none => Except.error ("Variable \"" ++ name ++ "\" not found")
  | some v => if pop_item then Except.ok (v, removeVar store name) else Except.ok (v, store)

/-!  ### TaskState (`__init__`, `update_applied_spec`, `to_dict`)  -/

/-- The attributes of `TaskState`. -/
structure TaskState where
  raw_spec : Option SpecDict
  raw_metadata : Option SpecDict
  report_label : String
  created_timestamp : Int
  applied_spec : Option SpecDict
  current_resolved_spec : Option SpecDict
  is_created : Bool
  applied_resources_checksum : Option String
  current_resource_checksum : Option String
deriving DecidableEq, Repr

/-- `TaskState.__init__`: `is_created` is set to `True` only inside
`if applied_spec is not None:`, when the applied spec is non-empty or the
created timestamp is positive. -/
def mkTaskState (manifest_spec applied_spec resolved_spec manifest_metadata : Option SpecDict)
    (report_label : String) (created_timestamp : Int)
    (applied_resources_checksum current_resource_checksum : Option String) : TaskState :=
  { raw_spec := manifest_spec
    raw_metadata := manifest_metadata
    report_label := report_label
    created_timestamp := created_timestamp
    applied_spec := applied_spec
    current_resolved_spec := resolved_spec
    is_created :=
      match applied_spec with
      | none => false
      | some s => decide (0 < s.length) || decide (0 < created_timestamp)
    applied_resources_checksum := applied_resources_checksum
    current_resource_checksum := current_resource_checksum }

/-- `TaskState.update_applied_spec`. -/
def update_applied_spec (ts : TaskState) (new_applied_spec : Option SpecDict)
    (new_applied_resource_checksum : Option String) (updated_timestamp : Int) : TaskState :=
  { ts with
    applied_spec := new_applied_spec
    applied_resources_checksum := new_applied_resource_checksum
    created_timestamp := updated_timestamp
    is_created :=
      match new_applied_spec with
      | none => false
      | some s => decide (0 < s.length) || decide (0 < updated_timestamp) }

/-- The values appearing in the report dict built by `TaskState.to_dict`.
`rtsdisplay n` stands for the human readable rendering of timestamp `n`
(the exact text produced by `datetime.fromtimestamp` is left opaque). -/
inductive RVal where
  | rnull
  | rbool (b : Bool)
  | rint (n : Int)
  | rstr (s : String)
  | rspec (sp : Option SpecDict)
  | rtsdisplay (n : Int)
deriving DecidableEq, Repr

/-- The report dict: insertion-ordered, like `VariableStore`. -/
abbrev ReportDict := List (String × RVal)

/-- Dict assignment for report dicts. -/
def dset (d : ReportDict) (name : String) (value : RVal) : ReportDict :=
  match d with
  | [] => [(name, value)]
  | (k, v) :: rest =>
    if k == name then (name, value) :: rest else (k, v) :: dset rest name value

/-- Dict lookup for report dicts. -/
def dget (d : ReportDict) (name : String) : Option RVal :=
  match d with
  | [] => none
  | (k, v) :: rest => if k == name then some v else dget rest name

/-- `TaskState.to_dict`.  `chk` stands for
`calculate_manifest_state_checksum` restricted to the `spec` argument (the
`metadata` argument defaults to `{}` at every call site inside `to_dict`); it
is kept abstract since it wraps SHA-256 over a JSON encoding.  The method also
mutates `self.current_resolved_spec` / `self.current_resource_checksum` when
the corresponding parameters are given, so the updated state is returned as
well. -/
def to_dict (chk : Option SpecDict → String) (ts : TaskState)
    (human_readable : Bool) (current_resolved_spec : Option SpecDict)
    (current_resource_checksum : Option String)
    (with_checksums : Bool) (include_applied_spec : Bool) : ReportDict × TaskState :=
  let data : ReportDict := []
  let data := dset data "Label" (RVal.rstr ts.report_label)
  let data := dset data "IsCreated" (RVal.rbool ts.is_created)
  let data :=
    if human_readable then
      let data := dset data "IsCreated" (RVal.rstr "No")
      if ts.is_created then dset data "IsCreated" (RVal.rstr "Yes") else data
    else data
  let data := dset data "CreatedTimestamp" RVal.rnull
  let data :=
    if ts.is_created && decide (0 < ts.created_timestamp) then
      let data := dset data "CreatedTimestamp" (RVal.rint ts.created_timestamp)
      if human_readable then
        dset data "CreatedTimestamp" (RVal.rtsdisplay ts.created_timestamp)
      else data
    else if !ts.is_created || ts.created_timestamp == 0 then
      if human_readable then dset data "CreatedTimestamp" (RVal.rstr "-") else data
    else data
  let data := dset data "SpecDrifted" RVal.rnull
  let data := if human_readable then dset data "SpecDrifted" (RVal.rstr "Unknown") else data
  -- mutation of self from the optional arguments
  let ts :=
    match current_resolved_spec with
    | some s => { ts with current_resolved_spec := some s }
    | none => ts
  let ts :=
    match current_resource_checksum with
    | some c => { ts with current_resource_checksum := some c }
    | none => ts
  let data := if human_readable then dset data "SpecDrifted" (RVal.rstr "No") else data
  let data :=
    if ts.is_created then
      match ts.current_resolved_spec, ts.applied_spec with
      | some _, some _ =>
        if chk ts.applied_spec != chk ts.current_resolved_spec then
          let data := dset data "SpecDrifted" (RVal.rbool true)
          if human_readable then dset data "SpecDrifted" (RVal.rstr "Yes") else data
        else data
      | _, _ => data
    else
      if human_readable then dset data "SpecDrifted" (RVal.rstr "N/A")
      else dset data "SpecDrifted" RVal.rnull
  let data := dset data "ResourceDrifted" RVal.rnull
  let data := if human_readable then dset data "ResourceDrifted" (RVal.rstr "Unknown") else data
  let data :=
    if ts.is_created then
      match ts.applied_resources_checksum with
      | some arc =>
        let data := dset data "ResourceDrifted" (RVal.rbool true)
        let data := if human_readable then dset data "ResourceDrifted" (RVal.rstr "Yes") else data
        match ts.current_resource_checksum with
        | some crc =>
          if crc == arc then
            let data := dset data "ResourceDrifted" (RVal.rbool false)
            if human_readable then dset data "ResourceDrifted" (RVal.rstr "No") else data
          else data
        | none => data
      | none => data
    else
      if human_readable then dset data "ResourceDrifted" (RVal.rstr "N/A")
      else dset data "ResourceDrifted" RVal.rnull
  let data :=
    if with_checksums then
      let data := dset data "AppliedSpecChecksum" RVal.rnull
      let data := dset data "CurrentResolvedSpecChecksum" RVal.rnull
      let data := dset data "AppliedResourcesChecksum" RVal.rnull
      let data := dset data "CurrentResourceChecksum" RVal.rnull
      let data :=
        if human_readable then
          let data := dset data "AppliedSpecChecksum" (RVal.rstr "unavailable")
          let data := dset data "CurrentResolvedSpecChecksum" (RVal.rstr "unavailable")
          let data := dset data "AppliedResourcesChecksum" (RVal.rstr "unavailable")
          dset data "CurrentResourceChecksum" (RVal.rstr "unavailable")
        else data
      let data :=
        match ts.applied_spec with
        | some _ =>
          if ts.is_created then dset data "AppliedSpecChecksum" (RVal.rstr (chk ts.applied_spec))
          else data
        | none => data
      let data :=
        match ts.current_resolved_spec with
        | some _ =>
          -- source line 306: the checksum is computed from the *parameter*
          -- `current_resolved_spec`, not from `self.current_resolved_spec`
          dset data "CurrentResolvedSpecChecksum" (RVal.rstr (chk current_resolved_spec))
        | none => data
      let data :=
        match ts.applied_resources_checksum with
        | some arc => if ts.is_created then dset data "AppliedResourcesChecksum" (RVal.rstr arc) else data
        | none => data
      let data :=
        match ts.current_resource_checksum with
        | some crc => if ts.is_created then dset data "CurrentResourceChecksum" (RVal.rstr crc) else data
        | none => data
      data
    else data
  let data := if include_applied_spec then dset data "AppliedSpec" (RVal.rspec ts.applied_spec) else data
  (data, ts)

/-!  ### ResolveTaskSpecVariablesHook._lookup_value  -/

/-- `hay` begins with `needle` (character lists). -/
def chars_begin_with : List Char → List Char → Bool
  | [], _ => true
  | _ :: _, [] => false
  | a :: as, b :: bs => a == b && chars_begin_with as bs

/-- `needle` occurs somewhere in the character list. -/
def chars_contain (needle : List Char) : List Char → Bool
  | [] => chars_begin_with needle []
  | b :: bs => chars_begin_with needle (b :: bs) || chars_contain needle bs

/-- Python substring test `needle in hay`. -/
def py_str_in (needle hay : String) : Bool := chars_contain needle.toList hay.toList

/-- The inner loop of `_lookup_value`: walk every store key in insertion
order and overwrite the running result on each key containing the candidate
(the source has no `break`). -/
def scan_store (store : VariableStore) (lookup_key_base : String) (result : Value) : Value :=
  match store with
  | [] => result
  | (k, v) :: rest =>
    scan_store rest lookup_key_base (if py_str_in lookup_key_base k then v else result)

/-- The outer loop of `_lookup_value` over the candidate keys, threading the
running result through `scan_store`. -/
def scan_candidates (store : VariableStore) (keys : List String) (result : Value) : Value :=
  match keys with
  | [] => result
  | base :: rest => scan_candidates store rest (scan_store store base result)

/-- The four candidate keys built by `_lookup_value`, in source order:
fully scoped, command scoped, context scoped, unscoped. -/
def potential_keys (target_task_id command context target_index : String) : List String :=
  [ target_task_id ++ ":" ++ command ++ ":" ++ context ++ ":" ++ target_index,
    target_task_id ++ ":" ++ command ++ "::" ++ target_index,
    target_task_id ++ "::" ++ context ++ ":" ++ target_index,
    target_task_id ++ ":" ++ target_index ]

/-- `_lookup_value` after the raw key has been split into the target task id
and the sub-key path: result starts as the empty string. -/
def lookup_value_from_parts (target_task_id target_index command context : String)
    (store : VariableStore) : Value :=
  scan_candidates store (potential_keys target_task_id command context target_index)
    (Value.vstr "")

/-- Python `str.split(':')` on character lists. -/
def split_on_colon_chars : List Char → List (List Char)
  | [] => [[]]
  | c :: rest =>
    let r := split_on_colon_chars rest
    if c == ':' then [] :: r
    else
      match r with
      | [] => [[c]]
      | h :: t => (c :: h) :: t

/-- Python `':'.join(...)` on character lists. -/
def join_with_colon : List (List Char) → List Char
  | [] => []
  | [x] => x
  | x :: y :: t => x ++ ':' :: join_with_colon (y :: t)

/-- `_lookup_value`: parses the `$\x7bVAR:...\x7d` placeholder — split on
`':'`, take part 1 as the target task id, join the remaining parts with
`':'` and drop every closing brace — then builds the candidate keys and
scans the store; raises when the raw key does not start with the placeholder
prefix. -/
def lookup_value (raw_key command context : String) (store : VariableStore) :
    Except String Value :=
  if chars_begin_with ("$\x7bVAR:".toList) raw_key.toList then
    let key_parts := split_on_colon_chars raw_key.toList
    let target_task_id := String.mk ((key_parts.get? 1).getD [])
    let target_index :=
      String.mk ((join_with_colon (key_parts.drop 2)).filter (fun ch => ch != '\x7d'))
    Except.ok (lookup_value_from_parts target_task_id target_index command context store)
  else
    Except.error ("Oops - the raw key is not what we expected: raw_key: " ++ raw_key)

/-- The value of the last store entry (in insertion order) whose key contains
`base`, if any.  Used to characterise the overwrite loop of `_lookup_value`. -/
def last_hit (store : VariableStore) (base : String) : Option Value :=
  match store with
  | [] => none
  | (k, v) :: rest =>
    match last_hit rest base with
    | some w => some w
    | none => if py_str_in base k then some v else none

/-- The hit of the last candidate key (in candidate order) that matches any
store entry. -/
def last_candidate_hit (store : VariableStore) (keys : List String) : Option Value :=
  match keys with
  | [] => none
  | base :: rest =>
    match last_candidate_hit store rest with
    | some w => some w
    | none => last_hit store base

/-!  ### TaskProcessor: events and the `process_task` dispatcher  -/

/-- The slice of `Task` needed by the dispatcher: its id and the
`autoRollback` metadata entry (`none` models a missing or non-boolean
entry). -/
structure TaskLite where
  task_id : String
  autoRollback : Option Bool
deriving DecidableEq, Repr

/-- `Task.auto_rollback_enabled`. -/
def auto_rollback_enabled (t : TaskLite) : Bool :=
  match t.autoRollback with
  | some b => b
  | none => false

/-- `TaskProcessor.create_identifier`. -/
def create_identifier (t : TaskLite) (variable_name : String) : String :=
  t.task_id ++ ":" ++ variable_name

/-- `TaskProcessor.init_event_variable`. -/
def init_event_variable (store : VariableStore) (t : TaskLite) : VariableStore :=
  if containsVar store (create_identifier t "PROCESSING_EVENTS") then store
  else add_variable store (create_identifier t "PROCESSING_EVENTS") (Value.vevents [])

/-- `TaskProcessor.add_event`: appends one event record to the task's
`PROCESSING_EVENTS` list, initializing it when absent; raises (as the source
does at `events.append`) when the stored value is not a list. -/
def add_event (store : VariableStore) (t : TaskLite) (event_label event_description : String) :
    Except String VariableStore :=
  let key := create_identifier t "PROCESSING_EVENTS"
  let updated := if containsVar store key then store else init_event_variable store t
  match lookupVar updated key with
  | some (Value.vevents es) =>
    Except.ok (add_variable updated key
      (Value.vevents (es ++ [{ eventLabel := event_label,
                               eventDescription := event_description,
                               taskId := t.task_id }])))
  | some _ => Except.error "AttributeError: stored events value does not support append"
  | none => Except.error ("Variable \"" ++ key ++ "\" not found")

/-- The six client-implemented actions of a `TaskProcessor`; each receives
the variable store and either returns an updated store or raises (`none`). -/
structure Processor where
  create_action : VariableStore → Option VariableStore
  delete_action : VariableStore → Option VariableStore
  update_action : VariableStore → Option VariableStore
  describe_action : VariableStore → Option VariableStore
  detect_drift_action : VariableStore → Option VariableStore
  rollback_action : VariableStore → Option VariableStore

/-- Result of one `process_task` run: whether it returned or raised (with the
exception message), the local variable store at that point, and the
instrumented log of processor-action invocations (action name and the store
passed to the action). -/
structure ProcResult where
  result : Except String Unit
  store : VariableStore
  calls : List (String × VariableStore)

/-- Lines 1150–1170 of `process_task`: the direct `RollbackAction` branch,
the auto-rollback branch, and the final `raise`. -/
def process_task_tail (p : Processor) (t : TaskLite) (store : VariableStore) (action : String)
    (auto_rollback exception_raised : Bool) (final_exception_message : String)
    (calls : List (String × VariableStore)) : ProcResult :=
  if action == "RollbackAction" && !exception_raised then
    match add_event store t "ROLLBACK_ACTION_START" "Start of processing" with
    | Except.error _ =>
      { result := Except.error "Action \"RollbackAction\" failed with exception - please see logs for details. Even if configured, no additional Rollback was performed on this action."
        store := store, calls := calls }
    | Except.ok vs1 =>
      match p.rollback_action vs1 with
      | none =>
        { result := Except.error "Action \"RollbackAction\" failed with exception - please see logs for details. Even if configured, no additional Rollback was performed on this action."
          store := vs1, calls := calls ++ [("RollbackAction", vs1)] }
      | some vs2 =>
        match add_event vs2 t "ROLLBACK_ACTION_DONE" "End of processing" with
        | Except.ok vs3 =>
          { result := Except.ok (), store := vs3, calls := calls ++ [("RollbackAction", vs1)] }
        | Except.error _ =>
          { result := Except.error "Action \"RollbackAction\" failed with exception - please see logs for details. Even if configured, no additional Rollback was performed on this action."
            store := vs2, calls := calls ++ [("RollbackAction", vs1)] }
  else if auto_rollback && action != "RollbackAction" && exception_raised then
    let vs0 := add_variable store (t.task_id ++ ":RollbackFrom") (Value.vstr action)
    match add_event vs0 t "ROLLBACK_ACTION_START" "Start of processing" with
    | Except.error _ =>
      { result := Except.error "\x7b\x7d Auto Rollback action was attempted, but also raised an exception."
        store := vs0, calls := calls }
    | Except.ok vs1 =>
      match p.rollback_action vs1 with
      | none =>
        { result := Except.error "\x7b\x7d Auto Rollback action was attempted, but also raised an exception."
          store := vs1, calls := calls ++ [("RollbackAction", vs1)] }
      | some vs2 =>
        match add_event vs2 t "ROLLBACK_ACTION_DONE" "End of processing" with
        | Except.ok vs3 =>
          { result := Except.error "\x7b\x7d Auto Rollback action was attempted."
            store := vs3, calls := calls ++ [("RollbackAction", vs1)] }
        | Except.error _ =>
          { result := Except.error "\x7b\x7d Auto Rollback action was attempted, but also raised an exception."
            store := vs2, calls := calls ++ [("RollbackAction", vs1)] }
  else
    { result := Except.error final_exception_message, store := store, calls := calls }

/-- The `except` branch shared by the Create/Delete/Update actions: write the
`*_ERROR` event (a failure of which propagates, since it happens inside the
`except` handler) and fall through to the tail with `exception_raised`
set.  The traceback text of the source is represented by the fixed
description `"EXCEPTION"`. -/
def process_task_after_error (p : Processor) (t : TaskLite) (store : VariableStore)
    (action : String) (auto_rollback : Bool) (error_label failed_message : String)
    (calls : List (String × VariableStore)) : ProcResult :=
  match add_event store t error_label "EXCEPTION" with
  | Except.error e => { result := Except.error e, store := store, calls := calls }
  | Except.ok vs => process_task_tail p t vs action auto_rollback true failed_message calls

/-- One of the Create/Delete/Update branches of `process_task`: `*_START`
event outside the `try`, the action call and the `*_DONE` event inside it. -/
def process_task_main_action (p : Processor) (t : TaskLite) (vs1 : VariableStore)
    (action : String) (auto_rollback : Bool)
    (act : VariableStore → Option VariableStore)
    (start_label done_label error_label done_description failed_message : String) : ProcResult :=
  match add_event vs1 t start_label "Start of processing" with
  | Except.error e => { result := Except.error e, store := vs1, calls := [] }
  | Except.ok vs2 =>
    match act vs2 with
    | some vs3 =>
      match add_event vs3 t done_label done_description with
      | Except.ok vs4 => { result := Except.ok (), store := vs4, calls := [(action, vs2)] }
      | Except.error _ =>
        process_task_after_error p t vs3 action auto_rollback error_label failed_message
          [(action, vs2)]
    | none =>
      process_task_after_error p t vs2 action auto_rollback error_label failed_message
        [(action, vs2)]

/-- One of the Describe/DetectDrift branches: everything, including the
`*_START` event, is inside the `try`; failures do not set `exception_raised`
and never trigger auto-rollback. -/
def process_task_observe_action (p : Processor) (t : TaskLite) (vs1 : VariableStore)
    (action : String) (auto_rollback : Bool)
    (act : VariableStore → Option VariableStore)
    (start_label done_label failed_message : String) : ProcResult :=
  match add_event vs1 t start_label "Start of processing" with
  | Except.error _ => process_task_tail p t vs1 action auto_rollback false failed_message []
  | Except.ok vs2 =>
    match act vs2 with
    | none => process_task_tail p t vs2 action auto_rollback false failed_message [(action, vs2)]
    | some vs3 =>
      match add_event vs3 t done_label "End of processing" with
      | Except.ok vs4 => { result := Except.ok (), store := vs4, calls := [(action, vs2)] }
      | Except.error _ =>
        process_task_tail p t vs3 action auto_rollback false failed_message [(action, vs2)]

/-- `TaskProcessor.process_task`: the action dispatcher. -/
def process_task (p : Processor) (t : TaskLite) (variable_store : VariableStore)
    (action : String) : ProcResult :=
  match add_event variable_store t "PROCESS_TASK_CALLED" "Ready For Processing" with
  | Except.error e => { result := Except.error e, store := variable_store, calls := [] }
  | Except.ok vs1 =>
    let auto_rollback := auto_rollback_enabled t
    if action == "CreateAction" then
      process_task_main_action p t vs1 action auto_rollback p.create_action
        "CREATE_ACTION_START" "CREATE_ACTION_DONE" "CREATE_ACTION_ERROR"
        "Start of processing"
        "Action \"CreateAction\" failed with exception - please see logs for details."
    else if action == "DeleteAction" then
      process_task_main_action p t vs1 action auto_rollback p.delete_action
        "DELETE_ACTION_START" "DELETE_ACTION_DONE" "DELETE_ACTION_ERROR"
        "End of processing"
        "Action \"DeleteAction\" failed with exception - please see logs for details."
    else if action == "UpdateAction" then
      process_task_main_action p t vs1 action auto_rollback p.update_action
        "UPDATE_ACTION_START" "UPDATE_ACTION_DONE" "UPDATE_ACTION_ERROR"
        "End of processing"
        "Action \"UpdateAction\" failed with exception - please see logs for details."
    else if action == "DescribeAction" then
      process_task_observe_action p t vs1 action auto_rollback p.describe_action
        "DESCRIBE_ACTION_START" "DESCRIBE_ACTION_DONE"
        "Action \"DescribeAction\" failed with exception - please see logs for details. Even if configured, no Auto Rollback was performed on this action."
    else if action == "DetectDriftAction" then
      process_task_observe_action p t vs1 action auto_rollback p.detect_drift_action
        "DETECT_DRIFT_ACTION_START" "DETECT_DRIFT_ACTION_DONE"
        "Action \"DetectDriftAction\" failed with exception - please see logs for details. Even if configured, no Auto Rollback was performed on this action."
    else
      process_task_tail p t vs1 action auto_rollback false
        ("Unrecognized action \"" ++ action ++ "\" provided") []

/-- The task's event list held in a store (empty when absent or malformed). -/
def events_of (store : VariableStore) (t : TaskLite) : List Event :=
  match lookupVar store (create_identifier t "PROCESSING_EVENTS") with
  | some (Value.vevents es) => es
  | _ => []

/-- The labels of the task's event journal, in order. -/
def event_labels (store : VariableStore) (t : TaskLite) : List String :=
  (events_of store t).map Event.eventLabel

/-- The events binding of the store is absent or well-typed, so that
`add_event` cannot raise. -/
def events_sane (store : VariableStore) (t : TaskLite) : Prop :=
  lookupVar store (create_identifier t "PROCESSING_EVENTS") = none ∨
  ∃ es, lookupVar store (create_identifier t "PROCESSING_EVENTS") = some (Value.vevents es)

/-!  ### TaskProcessingActionParameterValidation  -/

/-- The normalized constraint lists held by the validator. -/
structure Constraints where
  supportedCommands : List String
  supportedContexts : List String
  supportedActions : List String
deriving DecidableEq, Repr

/-- `TaskProcessingActionParameterValidation.__init__`: keeps only non-empty
strings from each configured list, then defaults `SupportedActions` to the
six action names when the filtered list is empty. -/
def mkConstraints (commands contexts actions : List String) : Constraints :=
  let cs := commands.filter (fun s => 0 < s.length)
  let xs := contexts.filter (fun s => 0 < s.length)
  let acts := actions.filter (fun s => 0 < s.length)
  { supportedCommands := cs
    supportedContexts := xs
    supportedActions :=
      if acts.length = 0 then
        ["CreateAction", "RollbackAction", "DeleteAction", "UpdateAction",
         "DescribeAction", "DetectDriftAction"]
      else acts }

/-- Extraction of a parameter as done by `validation_passed`: the value must
be present and a non-empty string, else `None`. -/
def getStrParam (params : List (String × String)) (key : String) : Option String :=
  match params with
  | [] => none
  | (k, v) :: rest =>
    if k == key then (if 0 < v.length then some v else none) else getStrParam rest key

/-- The loop `for catch_all_str in ('*', 'ALL', 'ANY'): if v != catch_all_str:
return False` completes without returning `False` only when `v` equals every
one of the three strings; it is kept verbatim from the source. -/
def catch_all_loop_passes (v : Option String) : Bool :=
  (["*", "ALL", "ANY"]).all (fun s => v == some s)

/-- `TaskProcessingActionParameterValidation.validation_passed`.  Note the
source's `else` branch of the SupportedContexts check assigns the context
list to `final_command_constraints` (line 600), leaving
`final_context_constraints` as the initial empty list. -/
def validation_passed (c : Constraints) (params : List (String × String)) : Bool :=
  let command := getStrParam params "Command"
  let context := getStrParam params "Context"
  let action := getStrParam params "Action"
  let final_command_constraints : List (Option String) :=
    if c.supportedCommands.length = 0 then [command] else c.supportedCommands.map some
  let final_context_constraints : List (Option String) := []
  let pair :=
    if c.supportedContexts.length = 0 then (final_command_constraints, [context])
    else (c.supportedContexts.map some, final_context_constraints)
  let final_command_constraints := pair.1
  let final_context_constraints := pair.2
  if !final_command_constraints.contains command && !catch_all_loop_passes command then false
  else if !final_context_constraints.contains context && !catch_all_loop_passes context then false
  else if !(c.supportedActions.map some).contains action then false
  else true

/-!  ### Tasks: scoping, dependencies and ordering  -/

/-- One `processingScope` clause (`none` models a missing key). -/
structure ScopeClause where
  commands : Option (List String)
  contexts : Option (List String)
deriving DecidableEq, Repr

/-- One `dependencies` clause: its `tasks` plus optional command/context
filters (`none` models a missing key). -/
structure DepClause where
  tasks : List String
  commands : Option (List String)
  contexts : Option (List String)
deriving DecidableEq, Repr

/-- The metadata of one task as used by the ordering engine:
`_extract_task_dependencies` normalizes a missing/null/non-list
`dependencies` entry to `[]`, and `task_scoped_for_processing` treats a
missing/null/non-list `processingScope` as permissive (`none` here). -/
structure TaskMeta where
  dependencies : List DepClause
  processingScope : Option (List ScopeClause)
deriving DecidableEq, Repr

/-- `Tasks.tasks`: the insertion-ordered mapping task id → task. -/
abbrev TaskSet := List (String × TaskMeta)

/-- Dict lookup on the task set (`get_task_instance_by_name`). -/
def lookupTask (ts : TaskSet) (name : String) : Option TaskMeta :=
  match ts with
  | [] => none
  | (k, m) :: rest => if k == name then some m else lookupTask rest name

/-- The task ids in insertion order (`list(self.tasks.keys())`). -/
def taskIds (ts : TaskSet) : List String := ts.map Prod.fst

/-- One `processingScope` clause matches `(command, context)`; a clause with
neither filter matches everything. -/
def scope_clause_matches (command context : String) (c : ScopeClause) : Bool :=
  match c.commands, c.contexts with
  | none, none => true
  | some cmds, none => cmds.contains command
  | none, some ctxs => ctxs.contains context
  | some cmds, some ctxs => cmds.contains command && ctxs.contains context

/-- `Tasks.task_scoped_for_processing`: permissive when `processingScope` is
absent; otherwise some clause must match.  Raises (the AttributeError on
`task.metadata`) when the task name is unknown, since
`get_task_instance_by_name` returned `None`. -/
def task_scoped_for_processing (ts : TaskSet) (name command context : String) :
    Except String Bool :=
  match lookupTask ts name with
  | none => Except.error ("AttributeError: task \"" ++ name ++ "\" not found")
  | some meta =>
    match meta.processingScope with
    | none => Except.ok true
    | some clauses => Except.ok (clauses.any (scope_clause_matches command context))

/-- A `dependencies` clause is active under `(command, context)`. -/
def dep_clause_active (command context : String) (c : DepClause) : Bool :=
  match c.commands, c.contexts with
  | none, none => true
  | none, some ctxs => ctxs.contains context
  | some cmds, none => cmds.contains command
  | some cmds, some ctxs => cmds.contains command && ctxs.contains context

/-- The per-clause check of `get_task_dependencies_as_list_of_task_names`:
every task listed in the clause must be scoped for processing — this runs
for every clause that has a `tasks` key, whether or not the clause is
active. -/
def check_clause_tasks_scoped (ts : TaskSet) (command context : String) :
    List String → Except String Unit
  | [] => Except.ok ()
  | d :: rest =>
    match task_scoped_for_processing ts d command context with
    | Except.error e => Except.error e
    | Except.ok true => check_clause_tasks_scoped ts command context rest
    | Except.ok false => Except.error ("Task dependency not scoped: " ++ d)

/-- The clause loop of `get_task_dependencies_as_list_of_task_names`:
check every clause's tasks, and collect the tasks of the active clauses in
clause order. -/
def collect_dependencies (ts : TaskSet) (command context : String) :
    List DepClause → Except String (List String)
  | [] => Except.ok []
  | c :: rest =>
    match check_clause_tasks_scoped ts command context c.tasks with
    | Except.error e => Except.error e
    | Except.ok () =>
      match collect_dependencies ts command context rest with
      | Except.error e => Except.error e
      | Except.ok l =>
        Except.ok ((if dep_clause_active command context c then c.tasks else []) ++ l)

/-- `Tasks.get_task_dependencies_as_list_of_task_names` (returns `[]` for an
unknown task name). -/
def get_task_dependencies_as_list_of_task_names (ts : TaskSet)
    (name command context : String) : Except String (List String) :=
  match lookupTask ts name with
  | none => Except.ok []
  | some meta => collect_dependencies ts command context meta.dependencies

/-- Fueled results: `none` = the recursion exhausted any bound (the source
recursion does not terminate), `some (Except.error e)` = raised,
`some (Except.ok v)` = returned `v`. -/
abbrev PRes (α : Type) := Option (Except String α)

/-- The dependency loop inside `_task_ordering`; `recur` is the recursive
call at the next lower fuel.  Note `order += _task_ordering(copy(order), d)`
appends the whole returned list — which itself starts with a copy of
`order` — onto `order`. -/
def task_ordering_deps (ts : TaskSet) (command context : String)
    (recur : List String → String → PRes (List String)) :
    List String → List String → PRes (List String)
  | order, [] => some (Except.ok order)
  | order, d :: rest =>
    match task_scoped_for_processing ts d command context with
    | Except.error e => some (Except.error e)
    | Except.ok false => task_ordering_deps ts command context recur order rest
    | Except.ok true =>
      if order.contains d then task_ordering_deps ts command context recur order rest
      else
        match recur order d with
        | none => none
        | some (Except.error e) => some (Except.error e)
        | some (Except.ok sub) =>
          task_ordering_deps ts command context recur (order ++ sub) rest

/-- `Tasks._task_ordering`, with explicit fuel standing for the Python
recursion depth. -/
def _task_ordering (ts : TaskSet) (command context : String) :
    Nat → List String → String → PRes (List String)
  | 0, _, _ => none
  | Nat.succ fuel, current_processing_order, candidate_task_name =>
    match task_scoped_for_processing ts candidate_task_name command context with
    | Except.error e => some (Except.error e)
    | Except.ok false => some (Except.ok current_processing_order)
    | Except.ok true =>
      match get_task_dependencies_as_list_of_task_names ts candidate_task_name
          command context with
      | Except.error e => some (Except.error e)
      | Except.ok deps =>
        match task_ordering_deps ts command context
            (_task_ordering ts command context fuel) current_processing_order deps with
        | none => none
        | some (Except.error e) => some (Except.error e)
        | some (Except.ok order) =>
          some (Except.ok (if order.contains candidate_task_name then order
                           else order ++ [candidate_task_name]))

/-- The inner filter loop of `get_task_names_in_order`: append the elements
of the sub-ordering not yet present, in order. -/
def append_new (result : List String) : List String → List String
  | [] => result
  | x :: rest => append_new (if result.contains x then result else result ++ [x]) rest

/-- The outer loop of `get_task_names_in_order` over the task ids. -/
def get_task_names_in_order_loop (ts : TaskSet) (command context : String) (fuel : Nat) :
    List String → List String → PRes (List String)
  | result, [] => some (Except.ok result)
  | result, name :: rest =>
    if result.contains name then
      get_task_names_in_order_loop ts command context fuel result rest
    else
      match _task_ordering ts command context fuel result name with
      | none => none
      | some (Except.error e) => some (Except.error e)
      | some (Except.ok sub) =>
        get_task_names_in_order_loop ts command context fuel (append_new result sub) rest

/-- `Tasks.get_task_names_in_order`. -/
def get_task_names_in_order (ts : TaskSet) (fuel : Nat) (command context : String) :
    PRes (List String) :=
  get_task_names_in_order_loop ts command context fuel [] (taskIds ts)

/-- The dependency clauses of a task (empty for an unknown task). -/
def deps_clauses_of (ts : TaskSet) (name : String) : List DepClause :=
  match lookupTask ts name with
  | none => []
  | some meta => meta.dependencies

/-- All ids listed in any dependency clause of a task, active or not. -/
def listed_deps_of (ts : TaskSet) (name : String) : List String :=
  (deps_clauses_of ts name).foldr (fun c acc => c.tasks ++ acc) []

/-- The active dependencies of a task under `(command, context)`: the tasks
of the active clauses, in clause order. -/
def active_deps_of (ts : TaskSet) (command context : String) (name : String) : List String :=
  ((deps_clauses_of ts name).filter (dep_clause_active command context)).foldr
    (fun c acc => c.tasks ++ acc) []

/-- Decidable in-scope test (false also when the task is unknown). -/
def in_scopeB (ts : TaskSet) (command context : String) (name : String) : Bool :=
  match task_scoped_for_processing ts name command context with
  | Except.ok true => true
  | _ => false

/-!  ### TaskProcessingHook.run  -/

/-- Plain first-match lookup in a string-valued parameters dict. -/
def lookup_param (params : List (String × String)) (key : String) : Option String :=
  match params with
  | [] => none
  | (k, v) :: rest => if k == key then some v else lookup_param rest key

/-- The slice of `Task` needed by the processing hook. -/
structure TaskFull where
  task_id : String
  api_version : String
  spec : SpecDict
deriving DecidableEq, Repr

/-- The dispatch step at the end of `TaskProcessingHook.run`: when the
validator passes, read `parameters['Action']` (a raw dict access that raises
`KeyError` when absent) and call the processor's `process_task`, modelled by
`pt` (`none` = it raised).  The instrumented log records the action and the
resolved spec handed to the dispatcher. -/
def task_processing_hook_dispatch
    (pt : String → Value → VariableStore → Option VariableStore)
    (validator : List (String × String) → Bool)
    (parameters : List (String × String)) (variable_store : VariableStore)
    (task_resolved_spec : Value) :
    Except String (VariableStore × List (String × Value)) :=
  if validator parameters then
    match lookup_param parameters "Action" with
    | none => Except.error "KeyError: Action"
    | some act =>
      match pt act task_resolved_spec variable_store with
      | none => Except.error "ActionFailed"
      | some vs => Except.ok (vs, [(act, task_resolved_spec)])
  else Except.ok (variable_store, [])

/-- `TaskProcessingHook.run`: look up the processor for the task's
api version (raising when none is registered), pick the resolved spec, then
dispatch.  The presence test on line 1300 uses the key
`ResolvedSpec:<taskId>`, but the read on line 1301 uses the bare key
`ResolvedSpec` — a raw dict access that raises `KeyError` when that bare key
is absent. -/
def task_processing_hook_run
    (registered_apis : List String)
    (pt : String → Value → VariableStore → Option VariableStore)
    (validator : List (String × String) → Bool)
    (t : TaskFull) (parameters : List (String × String))
    (variable_store : VariableStore) :
    Except String (VariableStore × List (String × Value)) :=
  if registered_apis.contains t.api_version then
    if containsVar variable_store ("ResolvedSpec:" ++ t.task_id) then
      match lookupVar variable_store "ResolvedSpec" with
      | none => Except.error "KeyError: ResolvedSpec"
      | some v =>
        task_processing_hook_dispatch pt validator parameters variable_store v
    else
      task_processing_hook_dispatch pt validator parameters variable_store
        (Value.vspec t.spec)
  else
    Except.error ("No processor found for API \"" ++ t.api_version ++ "\"")

/-!  ### WorkflowExecutor.execute_workflow  -/

/-- A workflow stage: its name and its `run` outcome as a function of the
store it receives (`none` = the invocation raised). -/
structure HookL where
  name : String
  run : VariableStore → Option VariableStore

/-- The guard on source line 1712 is `isinstance(GeneralErrorHook, Hook)`;
it tests the CLASS OBJECT `GeneralErrorHook`, not the instance held in
`self.general_error_hook`, and a class object is never an instance of
`Hook`, so the expression is constantly `False`. -/
def isinstance_GeneralErrorHook_class_Hook : Bool := false

/-- Dict assignment in a string-valued parameters dict. -/
def set_param (params : List (String × String)) (key value : String) :
    List (String × String) :=
  match params with
  | [] => [(key, value)]
  | (k, v) :: rest =>
    if k == key then (key, value) :: rest else (k, v) :: set_param rest key value

/-- The mutable state threaded through `execute_workflow`'s loops. -/
structure ExecState where
  updated : VariableStore
  parameters : List (String × String)
  general_error_hook_calls : Nat
  attempted : List (String × String)
  commits : Nat
deriving DecidableEq

/-- The stage loop for one task.  Every hook receives `self.variable_store`
(the executor's own store — the source passes it as the `variable_manager`
keyword on every invocation), while `updated_variable_store` is overwritten
with each hook's return value.  On a hook exception: the general-error-hook
branch is guarded by `isinstance(GeneralErrorHook, Hook)` (constantly
false), so neither `parameters['ExceptionStacktrace']` is set nor the hook
invoked, and the executor raises the hook-failure exception. -/
def run_hooks_for_task (general_error_hook : Option HookL)
    (self_store : VariableStore) (task_name : String) :
    List HookL → ExecState → Option String × ExecState
  | [], st => (none, st)
  | hook :: rest, st =>
    let st1 := { st with attempted := st.attempted ++ [(task_name, hook.name)] }
    match hook.run self_store with
    | some out =>
      run_hooks_for_task general_error_hook self_store task_name rest
        { st1 with updated := out }
    | none =>
      match general_error_hook with
      | some geh =>
        if isinstance_GeneralErrorHook_class_Hook then
          let st2 := { st1 with
            parameters := set_param st1.parameters "ExceptionStacktrace" "traceback"
            general_error_hook_calls := st1.general_error_hook_calls +
              (match geh.run self_store with | _ => 1) }
          (some ("Failure to process hook \"" ++ hook.name ++ "\" - cannot continue"), st2)
        else
          (some ("Failure to process hook \"" ++ hook.name ++ "\" - cannot continue"), st1)
      | none =>
        (some ("Failure to process hook \"" ++ hook.name ++ "\" - cannot continue"), st1)

/-- The task loop of `execute_workflow`: run every stage for the task, then
`persistence.commit()`; abort everything on the first stage failure. -/
def run_tasks (steps : List HookL) (general_error_hook : Option HookL)
    (self_store : VariableStore) : List String → ExecState → Option String × ExecState
  | [], st => (none, st)
  | task_name :: rest, st =>
    match run_hooks_for_task general_error_hook self_store task_name steps st with
    | (some e, st1) => (some e, st1)
    | (none, st1) =>
      run_tasks steps general_error_hook self_store rest
        { st1 with commits := st1.commits + 1 }

/-- The observable outcome of `execute_workflow`. -/
structure ExecResult where
  result : Except String VariableStore
  parameters : List (String × String)
  general_error_hook_calls : Nat
  attempted : List (String × String)
  commits : Nat

/-- `WorkflowExecutor.execute_workflow`. -/
def execute_workflow (steps : List HookL) (ts : TaskSet)
    (general_error_hook : Option HookL) (variable_store : VariableStore)
    (command_to_action_map : List (String × String)) (fuel : Nat)
    (command context : String) : Option ExecResult :=
  if steps.length = 0 then
    some { result := Except.error "No more steps to execute", parameters := [],
           general_error_hook_calls := 0, attempted := [], commits := 0 }
  else
    match lookup_param command_to_action_map command with
    | none =>
      some { result := Except.error ("Unrecognized command \"" ++ command ++ "\""),
             parameters := [], general_error_hook_calls := 0, attempted := [], commits := 0 }
    | some act =>
      let parameters := [("Action", act), ("Command", command), ("Context", context)]
      match get_task_names_in_order ts fuel command context with
      | none => none
      | some (Except.error e) =>
        some { result := Except.error e, parameters := parameters,
               general_error_hook_calls := 0, attempted := [], commits := 0 }
      | some (Except.ok names) =>
        match run_tasks steps general_error_hook variable_store names
            { updated := variable_store, parameters := parameters,
              general_error_hook_calls := 0, attempted := [], commits := 0 } with
        | (some e, st) =>
          some { result := Except.error e, parameters := st.parameters,
                 general_error_hook_calls := st.general_error_hook_calls,
                 attempted := st.attempted, commits := st.commits }
        | (none, st) =>
          some { result := Except.ok st.updated, parameters := st.parameters,
                 general_error_hook_calls := st.general_error_hook_calls,
                 attempted := st.attempted, commits := st.commits }

/-- The cyclic two-task set: `t1` depends on `t2` and `t2` depends on `t1`,
both unconditionally and with no processing scope restriction. -/
def cyclicTasks : TaskSet :=
  [("t1", { dependencies := [{ tasks := ["t2"], commands := none, contexts := none }],
            processingScope := none }),
   ("t2", { dependencies := [{ tasks := ["t1"], commands := none, contexts := none }],
            processingScope := none })]

/-- Task set where the in-scope task `tmain` has one INACTIVE dependency
clause (bound to command `othercmd`) listing `dout`, and `dout` is not in
scope (its `processingScope` is an empty clause list). -/
def inactiveClauseTasks : TaskSet :=
  [("tmain", { dependencies := [{ tasks := ["dout"], commands := some ["othercmd"],
                                  contexts := none }],
               processingScope := none }),
   ("dout", { dependencies := [], processingScope := some [] })]

/-- First occurrence of `D` strictly precedes any occurrence of `T`: some
prefix contains `D` but not `T`. -/
def occursBefore (l : List String) (D T : String) : Prop :=
  ∃ n, D ∈ l.take n ∧ T ∉ l.take n

/-- Every in-scope task present in `l` is preceded by each of its in-scope
active dependencies. -/
def DepOrdered (ts : TaskSet) (command context : String) (l : List String) : Prop :=
  ∀ T, T ∈ l → in_scopeB ts command context T = true →
    ∀ D ∈ active_deps_of ts command context T,
      in_scopeB ts command context D = true → occursBefore l D T

end Operarius

-- ======================== theorems ========================

namespace Operarius

/-- C10: `get_variable` raises exactly on missing names and returns the
stored value otherwise. -/
theorem get_variable_missing_raises_present_returns (store : VariableStore) (name : String) :
    (lookupVar store name = none →
      get_variable store name false =
        Except.error ("Variable \"" ++ name ++ "\" not found")) ∧
    (∀ v, lookupVar store name = some v →
      get_variable store name false = Except.ok (v, store)) := by
  constructor
  · intro h
    simp [get_variable, h]
  · intro v h
    simp [get_variable, h]

/-- Lookup after assignment at the same key. -/
theorem dget_dset_same (d : ReportDict) (k : String) (v : RVal) :
    dget (dset d k v) k = some v := by
  induction d with
  | nil => simp [dset, dget]
  | cons p rest ih =>
    obtain ⟨k', v'⟩ := p
    by_cases h : (k' == k) = true
    · simp [dset, dget, h]
    · simp at h
      simp [dset, dget, h, ih]

/-- Lookup after assignment at a different key. -/
theorem dget_dset_other (d : ReportDict) (k k' : String) (v : RVal) (h : (k' == k) = false) :
    dget (dset d k' v) k = dget d k := by
  induction d with
  | nil => simp [dset, dget, h]
  | cons p rest ih =>
    obtain ⟨k0, v0⟩ := p
    by_cases h0 : (k0 == k') = true
    · simp at h0
      subst h0
      simp [dset, dget, h]
    · simp at h0
      by_cases h1 : (k0 == k) = true
      · simp [dset, dget, h0, h1]
      · simp at h1
        simp [dset, dget, h0, h1, ih]

/-- C6 counterexample: constructing a `TaskState` with `applied_spec = None`
and a positive `created_timestamp` yields `is_created = False`, although the
claim's rule `(appliedSpec non-empty) OR (createdTimestamp > 0)` gives true. -/
theorem is_created_none_applied_positive_ts_counterexample :
    (mkTaskState none none none none "" 5 none none).is_created = false ∧ ((0 : Int) < 5) := by
  decide

/-- C6 amended: after construction and after every `update_applied_spec`,
`is_created` is true iff the applied spec is not `None` AND (it is non-empty
or the timestamp is positive).  (When the applied spec is `None`, `is_created`
is false regardless of the timestamp.) -/
theorem is_created_iff_rule (m a r md : Option SpecDict) (l : String) (t : Int)
    (x y : Option String) (ts0 : TaskState) (a' : Option SpecDict) (x' : Option String)
    (t' : Int) :
    ((mkTaskState m a r md l t x y).is_created = true ↔
      ∃ s, a = some s ∧ (0 < s.length ∨ 0 < t)) ∧
    ((update_applied_spec ts0 a' x' t').is_created = true ↔
      ∃ s, a' = some s ∧ (0 < s.length ∨ 0 < t')) := by
  constructor
  · cases a with
    | none => simp [mkTaskState]
    | some s => simp [mkTaskState]
  · cases a' with
    | none => simp [update_applied_spec]
    | some s => simp [update_applied_spec]

/-- C5 counterexample: a created state whose applied and current specs have
equal checksums reports `SpecDrifted = None` (not `False`) in the
non-human-readable output of `to_dict`. -/
theorem to_dict_spec_drifted_none_counterexample :
    (dget (to_dict (fun _ => "h")
        (mkTaskState (some []) (some [("f", "1")]) (some [("f", "1")]) none "t" 1000 none none)
        false none none false false).1 "SpecDrifted" = some RVal.rnull) ∧
    some RVal.rnull ≠ some (RVal.rbool false) := by
  decide

/-- C5 amended: in the non-human-readable report, `SpecDrifted` is `True`
exactly when the state is created, both the (possibly overridden) current
resolved spec and the applied spec are present, and their checksums differ;
in every other case it is `None` — it is never `False`. -/
theorem to_dict_spec_drifted_amended (chk : Option SpecDict → String) (ts : TaskState)
    (crs : Option SpecDict) (crc : Option String) (wc ias : Bool) :
    dget (to_dict chk ts false crs crc wc ias).1 "SpecDrifted" =
      some (
        if ts.is_created
            && (match crs with | some s => some s | none => ts.current_resolved_spec).isSome
            && ts.applied_spec.isSome
            && (chk ts.applied_spec !=
                chk (match crs with | some s => some s | none => ts.current_resolved_spec))
        then RVal.rbool true else RVal.rnull) := by
  rcases crs with _ | s <;> rcases crc with _ | c <;>
  cases hic : ts.is_created <;>
  rcases happ : ts.applied_spec with _ | a <;>
  rcases hcur : ts.current_resolved_spec with _ | cu <;>
  rcases harc : ts.applied_resources_checksum with _ | arc <;>
  rcases hcrc : ts.current_resource_checksum with _ | q <;>
  cases wc <;> cases ias <;>
  simp [to_dict, hic, happ, hcur, harc, hcrc, dget_dset_same,
    dget_dset_other, apply_ite (fun d => dget d "SpecDrifted")] <;>
  split_ifs <;> simp_all [dget_dset_same, dget_dset_other]

/-- The overwrite loop over store keys keeps the value of the last matching
entry. -/
theorem scan_store_eq_last_hit (store : VariableStore) (base : String) (r : Value) :
    scan_store store base r = (last_hit store base).getD r := by
  induction store generalizing r with
  | nil => simp [scan_store, last_hit]
  | cons p rest ih =>
    obtain ⟨k, v⟩ := p
    rw [scan_store, ih]
    rcases h : last_hit rest base with _ | w
    · simp [last_hit, h]
      split <;> simp
    · simp [last_hit, h]

/-- The overwrite loop over candidate keys keeps the hit of the last
matching candidate. -/
theorem scan_candidates_eq_last_candidate_hit (store : VariableStore)
    (keys : List String) (r : Value) :
    scan_candidates store keys r = (last_candidate_hit store keys).getD r := by
  induction keys generalizing r with
  | nil => simp [scan_candidates, last_candidate_hit]
  | cons base rest ih =>
    rw [scan_candidates, ih]
    rcases h : last_candidate_hit store rest with _ | w
    · simp [last_candidate_hit, h, scan_store_eq_last_hit]
    · simp [last_candidate_hit, h]

/-- C3 amended: the value chosen by `_lookup_value` is that of the LAST
candidate key with a matching store entry — unscoped wins over
context-scoped, which wins over command-scoped, which wins over
fully-scoped — and within one candidate the last matching store entry wins;
if no candidate matches the result is the empty string. -/
theorem lookup_value_reversed_priority (store : VariableStore)
    (T K cmd ctx : String) :
    lookup_value_from_parts T K cmd ctx store =
      (match last_hit store (T ++ ":" ++ K) with
       | some w => w
       | none =>
         match last_hit store (T ++ "::" ++ ctx ++ ":" ++ K) with
         | some w => w
         | none =>
           match last_hit store (T ++ ":" ++ cmd ++ "::" ++ K) with
           | some w => w
           | none =>
             match last_hit store (T ++ ":" ++ cmd ++ ":" ++ ctx ++ ":" ++ K) with
             | some w => w
             | none => Value.vstr "") := by
  rw [lookup_value_from_parts, scan_candidates_eq_last_candidate_hit]
  simp only [potential_keys, last_candidate_hit]
  rcases last_hit store (T ++ ":" ++ K) with _ | w₁ <;>
    rcases last_hit store (T ++ "::" ++ ctx ++ ":" ++ K) with _ | w₂ <;>
    rcases last_hit store (T ++ ":" ++ cmd ++ "::" ++ K) with _ | w₃ <;>
    rcases last_hit store (T ++ ":" ++ cmd ++ ":" ++ ctx ++ ":" ++ K) with _ | w₄ <;>
    simp

/-- C3 counterexample: with both a fully-scoped and an unscoped binding in
the store, `_lookup_value` substitutes the UNSCOPED value, not the
fully-scoped one as claimed. -/
theorem lookup_value_priority_counterexample :
    lookup_value "$\x7bVAR:T:K\x7d" "c" "x"
        [("T:c:x:K", Value.vstr "FULL"), ("T:K", Value.vstr "UNSC")] =
      Except.ok (Value.vstr "UNSC") ∧
    Value.vstr "UNSC" ≠ Value.vstr "FULL" := by
  refine ⟨?_, by decide⟩
  rfl

/-- C9: two inputs the claim says must validate successfully are rejected.
First: empty `SupportedCommands` (accept anything), context listed in
`SupportedContexts`, action in the default list — rejected, because the
source assigns the contexts to `final_command_constraints` (line 600) and
leaves the context constraints empty.  Second: the catch-all command `ALL`
with a non-matching `SupportedCommands` — rejected, because the catch-all
loop returns `False` on the first mismatching catch-all string. -/
theorem validation_passed_rejects_claimed_valid_inputs :
    validation_passed (mkConstraints [] ["ctx1"] [])
        [("Command", "c"), ("Context", "ctx1"), ("Action", "CreateAction")] = false ∧
    validation_passed (mkConstraints ["cmd1"] [] [])
        [("Command", "ALL"), ("Context", "x"), ("Action", "CreateAction")] = false := by
  decide

/-- Lookup after `add_variable` at the written key. -/
theorem lookupVar_add_variable_same (store : VariableStore) (k : String) (v : Value) :
    lookupVar (add_variable store k v) k = some v := by
  induction store with
  | nil => simp [add_variable, lookupVar]
  | cons p rest ih =>
    obtain ⟨k0, v0⟩ := p
    by_cases h : (k0 == k) = true
    · simp [add_variable, lookupVar, h]
    · simp at h
      simp [add_variable, lookupVar, h, ih]

/-- Lookup after `add_variable` at a different key. -/
theorem lookupVar_add_variable_other (store : VariableStore) (k k' : String) (v : Value)
    (h : k' ≠ k) :
    lookupVar (add_variable store k' v) k = lookupVar store k := by
  induction store with
  | nil => simp [add_variable, lookupVar, h]
  | cons p rest ih =>
    obtain ⟨k0, v0⟩ := p
    by_cases h0 : (k0 == k') = true
    · simp at h0
      subst h0
      simp [add_variable, lookupVar, h]
    · simp at h0
      by_cases h1 : (k0 == k) = true
      · simp [add_variable, lookupVar, h0, h1]
      · simp at h1
        simp [add_variable, lookupVar, h0, h1, ih]

/-- Membership agrees with lookup. -/
theorem containsVar_eq_isSome (store : VariableStore) (k : String) :
    containsVar store k = (lookupVar store k).isSome := by
  induction store with
  | nil => simp [containsVar, lookupVar]
  | cons p rest ih =>
    obtain ⟨k0, v0⟩ := p
    by_cases h : (k0 == k) = true
    · simp [containsVar, lookupVar, h]
    · simp at h
      simp [containsVar, lookupVar, h, ih]

/-- The `RollbackFrom` variable never collides with the event journal key. -/
theorem rollback_key_ne (t : TaskLite) :
    (t.task_id ++ ":RollbackFrom") ≠ create_identifier t "PROCESSING_EVENTS" := by
  intro h
  have h2 := congrArg String.data h
  simp only [create_identifier, String.data_append, List.append_assoc] at h2
  have h3 := List.append_cancel_left h2
  simp at h3

/-- `add_event` on a sane store succeeds, appends exactly one record to the
journal, keeps the store sane and leaves every other binding unchanged. -/
theorem add_event_ok (store : VariableStore) (t : TaskLite) (l d : String)
    (h : events_sane store t) :
    ∃ out, add_event store t l d = Except.ok out ∧
      events_of out t = events_of store t ++
        [{ eventLabel := l, eventDescription := d, taskId := t.task_id }] ∧
      events_sane out t ∧
      ∀ k, k ≠ create_identifier t "PROCESSING_EVENTS" →
        lookupVar out k = lookupVar store k := by
  rcases h with h | ⟨es, h⟩
  · have hc : containsVar store (create_identifier t "PROCESSING_EVENTS") = false := by
      rw [containsVar_eq_isSome, h]
      rfl
    refine ⟨add_variable (add_variable store (create_identifier t "PROCESSING_EVENTS")
        (Value.vevents []))
        (create_identifier t "PROCESSING_EVENTS")
        (Value.vevents ([] ++ [{ eventLabel := l, eventDescription := d,
                                 taskId := t.task_id }])), ?_, ?_, ?_, ?_⟩
    · simp [add_event, hc, init_event_variable, lookupVar_add_variable_same]
    · simp [events_of, h, lookupVar_add_variable_same]
    · exact Or.inr ⟨_, lookupVar_add_variable_same _ _ _⟩
    · intro k hk
      rw [lookupVar_add_variable_other _ _ _ _ (fun he => hk he.symm),
        lookupVar_add_variable_other _ _ _ _ (fun he => hk he.symm)]
  · have hc : containsVar store (create_identifier t "PROCESSING_EVENTS") = true := by
      rw [containsVar_eq_isSome, h]
      rfl
    refine ⟨add_variable store (create_identifier t "PROCESSING_EVENTS")
        (Value.vevents (es ++ [{ eventLabel := l, eventDescription := d,
                                 taskId := t.task_id }])), ?_, ?_, ?_, ?_⟩
    · simp [add_event, hc, h]
    · simp [events_of, h, lookupVar_add_variable_same]
    · exact Or.inr ⟨_, lookupVar_add_variable_same _ _ _⟩
    · intro k hk
      rw [lookupVar_add_variable_other _ _ _ _ (fun he => hk he.symm)]

/-- C4: with `autoRollback=true` and a `CreateAction` that raises, the
dispatcher invokes the rollback action exactly once; the store the rollback
receives already holds `<taskId>:RollbackFrom = "CreateAction"`; the journal
gains `CREATE_ACTION_ERROR`, `ROLLBACK_ACTION_START`, `ROLLBACK_ACTION_DONE`
in that order; and `process_task` raises the rollback-attempted variant of
the action-failure message. -/
theorem process_task_auto_rollback_create (p : Processor) (t : TaskLite)
    (store : VariableStore) (rb : VariableStore → VariableStore)
    (hauto : auto_rollback_enabled t = true)
    (hsane : events_sane store t)
    (hcreate : ∀ s, p.create_action s = none)
    (hrb : p.rollback_action = fun s => some (rb s))
    (hrbev : ∀ s, lookupVar (rb s) (create_identifier t "PROCESSING_EVENTS") =
      lookupVar s (create_identifier t "PROCESSING_EVENTS")) :
    ((process_task p t store "CreateAction").calls.filter
        (fun c => c.1 == "RollbackAction")).length = 1 ∧
    (∀ c ∈ (process_task p t store "CreateAction").calls, c.1 = "RollbackAction" →
      lookupVar c.2 (t.task_id ++ ":RollbackFrom") = some (Value.vstr "CreateAction")) ∧
    (process_task p t store "CreateAction").result =
      Except.error "\x7b\x7d Auto Rollback action was attempted." ∧
    event_labels (process_task p t store "CreateAction").store t =
      event_labels store t ++
        ["PROCESS_TASK_CALLED", "CREATE_ACTION_START", "CREATE_ACTION_ERROR",
         "ROLLBACK_ACTION_START", "ROLLBACK_ACTION_DONE"] := by
  obtain ⟨vs1, h1, h1ev, h1sane, h1pres⟩ :=
    add_event_ok store t "PROCESS_TASK_CALLED" "Ready For Processing" hsane
  obtain ⟨vs2, h2, h2ev, h2sane, h2pres⟩ :=
    add_event_ok vs1 t "CREATE_ACTION_START" "Start of processing" h1sane
  obtain ⟨vs3, h3, h3ev, h3sane, h3pres⟩ :=
    add_event_ok vs2 t "CREATE_ACTION_ERROR" "EXCEPTION" h2sane
  have hlk0 : lookupVar (add_variable vs3 (t.task_id ++ ":RollbackFrom")
      (Value.vstr "CreateAction")) (create_identifier t "PROCESSING_EVENTS") =
      lookupVar vs3 (create_identifier t "PROCESSING_EVENTS") :=
    lookupVar_add_variable_other _ _ _ _ (rollback_key_ne t)
  have hsane0 : events_sane (add_variable vs3 (t.task_id ++ ":RollbackFrom")
      (Value.vstr "CreateAction")) t := by
    rw [events_sane, hlk0]
    exact h3sane
  obtain ⟨vs4, h4, h4ev, h4sane, h4pres⟩ :=
    add_event_ok _ t "ROLLBACK_ACTION_START" "Start of processing" hsane0
  have hsane5 : events_sane (rb vs4) t := by
    rw [events_sane, hrbev vs4]
    exact h4sane
  obtain ⟨vs5, h5, h5ev, h5sane, h5pres⟩ :=
    add_event_ok (rb vs4) t "ROLLBACK_ACTION_DONE" "End of processing" hsane5
  have hrun : process_task p t store "CreateAction" =
      { result := Except.error "\x7b\x7d Auto Rollback action was attempted."
        store := vs5
        calls := [("CreateAction", vs2), ("RollbackAction", vs4)] } := by
    simp [process_task, h1, process_task_main_action, h2, hcreate,
      process_task_after_error, h3, process_task_tail, hauto, h4, hrb, h5]
  have hev0 : events_of (add_variable vs3 (t.task_id ++ ":RollbackFrom")
      (Value.vstr "CreateAction")) t = events_of vs3 t := by
    rw [events_of, hlk0, events_of]
  have hevrb : events_of (rb vs4) t = events_of vs4 t := by
    rw [events_of, hrbev vs4, events_of]
  have hrbfrom : lookupVar vs4 (t.task_id ++ ":RollbackFrom") =
      some (Value.vstr "CreateAction") := by
    rw [h4pres _ (rollback_key_ne t), lookupVar_add_variable_same]
  refine ⟨?_, ?_, ?_, ?_⟩
  · rw [hrun]
    simp
  · rw [hrun]
    intro c hc hname
    simp only [List.mem_cons, List.not_mem_nil, or_false] at hc
    rcases hc with hc | hc
    · rw [hc] at hname
      simp at hname
    · rw [hc]
      exact hrbfrom
  · rw [hrun]
  · rw [hrun]
    show event_labels vs5 t = _
    unfold event_labels
    rw [h5ev, hevrb, h4ev, hev0, h3ev, h2ev, h1ev]
    simp

/-- Witness for C4 at a concrete task, processor and store. -/
theorem process_task_auto_rollback_create_witness :
    (process_task
      { create_action := fun _ => none
        delete_action := some
        update_action := some
        describe_action := some
        detect_drift_action := some
        rollback_action := fun s => some s }
      { task_id := "t1", autoRollback := some true } [] "CreateAction").result =
      Except.error "\x7b\x7d Auto Rollback action was attempted." := by
  have h := process_task_auto_rollback_create
    { create_action := fun _ => none
      delete_action := some
      update_action := some
      describe_action := some
      detect_drift_action := some
      rollback_action := fun s => some s }
    { task_id := "t1", autoRollback := some true } [] id rfl (Or.inl rfl)
    (fun _ => rfl) rfl (fun _ => rfl)
  exact h.2.2.1

/-- C8: the hook tests for the key `ResolvedSpec:<taskId>` but reads the
bare key `ResolvedSpec`.  With only the task-scoped binding present the hook
raises `KeyError`; with both present it hands the dispatcher the value of
the bare key instead of the task-scoped one. -/
theorem task_processing_hook_reads_unsuffixed_key :
    task_processing_hook_run ["v1"] (fun _ _ s => some s) (fun _ => true)
        { task_id := "t1", api_version := "v1", spec := [("k", "raw")] }
        [("Action", "CreateAction")]
        [("ResolvedSpec:t1", Value.vspec [("k", "resolved")])] =
      Except.error "KeyError: ResolvedSpec" ∧
    task_processing_hook_run ["v1"] (fun _ _ s => some s) (fun _ => true)
        { task_id := "t1", api_version := "v1", spec := [("k", "raw")] }
        [("Action", "CreateAction")]
        [("ResolvedSpec:t1", Value.vspec [("k", "resolved")]),
         ("ResolvedSpec", Value.vspec [("k", "bare")])] =
      Except.ok ([("ResolvedSpec:t1", Value.vspec [("k", "resolved")]),
                  ("ResolvedSpec", Value.vspec [("k", "bare")])],
                 [("CreateAction", Value.vspec [("k", "bare")])]) :=
  ⟨rfl, rfl⟩

/-- C7: with two tasks and a single stage whose invocation raises, the
executor aborts with the hook-failure exception without attempting the
second task — but, the guard `isinstance(GeneralErrorHook, Hook)` being
constantly false, it neither sets `parameters['ExceptionStacktrace']` nor
invokes the configured general-error hook, and no commit happens. -/
theorem execute_workflow_hook_failure_behavior :
    execute_workflow [{ name := "h", run := fun _ => none }]
        [("t1", { dependencies := [], processingScope := none }),
         ("t2", { dependencies := [], processingScope := none })]
        (some { name := "geh", run := fun s => some s }) []
        [("cmd", "CreateAction")] 10 "cmd" "ctx" =
      some { result := Except.error "Failure to process hook \"h\" - cannot continue"
             parameters := [("Action", "CreateAction"), ("Command", "cmd"),
               ("Context", "ctx")]
             general_error_hook_calls := 0
             attempted := [("t1", "h")]
             commits := 0 } :=
  rfl

/-- `_task_ordering` on the cycle `t1 → t2 → t1` exhausts every fuel bound
starting from an empty current order: the source recursion calls itself with
identical arguments and never terminates. -/
theorem cyclic_task_ordering_diverges (fuel : Nat) :
    _task_ordering cyclicTasks "c1" "x1" fuel [] "t1" = none ∧
    _task_ordering cyclicTasks "c1" "x1" fuel [] "t2" = none := by
  induction fuel with
  | zero => exact ⟨rfl, rfl⟩
  | succ n ih =>
    have ih1 := ih.1
    have ih2 := ih.2
    simp only [cyclicTasks] at ih1 ih2
    constructor
    · simp [_task_ordering, task_ordering_deps, task_scoped_for_processing, lookupTask,
        cyclicTasks, get_task_dependencies_as_list_of_task_names, collect_dependencies,
        check_clause_tasks_scoped, dep_clause_active, ih1, ih2]
    · simp [_task_ordering, task_ordering_deps, task_scoped_for_processing, lookupTask,
        cyclicTasks, get_task_dependencies_as_list_of_task_names, collect_dependencies,
        check_clause_tasks_scoped, dep_clause_active, ih1, ih2]

/-- C2: on the cyclic task set, `get_task_names_in_order` exhausts every
fuel bound — the source recursion does not terminate (Python dies with
`RecursionError`), and in particular no `DependencyCycle` error is ever
raised. -/
theorem get_task_names_in_order_cycle_diverges (fuel : Nat) :
    get_task_names_in_order cyclicTasks fuel "c1" "x1" = none := by
  have h1 := (cyclic_task_ordering_diverges fuel).1
  simp only [cyclicTasks] at h1
  simp [get_task_names_in_order, get_task_names_in_order_loop, taskIds, cyclicTasks, h1]

/-- C1 counterexample: on `inactiveClauseTasks` under `(c1, x1)` all the
claim's hypotheses hold — every dependency id names a task, and there are no
active dependencies at all (so the active in-scope graph is acyclic and
every active dependency of an in-scope task is vacuously in scope) — yet
`get_task_names_in_order` raises instead of returning a sequence, because
the scope check also runs over the tasks of INACTIVE dependency clauses. -/
theorem get_task_names_in_order_inactive_clause_counterexample :
    (∀ T ∈ taskIds inactiveClauseTasks, ∀ d ∈ listed_deps_of inactiveClauseTasks T,
      d ∈ taskIds inactiveClauseTasks) ∧
    (∀ T ∈ taskIds inactiveClauseTasks,
      active_deps_of inactiveClauseTasks "c1" "x1" T = []) ∧
    get_task_names_in_order inactiveClauseTasks 10 "c1" "x1" =
      some (Except.error "Task dependency not scoped: dout") := by
  refine ⟨by decide, by decide, rfl⟩

/-- `List.contains` agrees with membership for strings. -/
theorem list_contains_iff (l : List String) (a : String) : l.contains a = true ↔ a ∈ l := by
  simp [List.contains, List.elem_iff]

/-- A successful task lookup means the name is among the task ids. -/
theorem lookupTask_mem (ts : TaskSet) (name : String) (m : TaskMeta)
    (h : lookupTask ts name = some m) : name ∈ taskIds ts := by
  induction ts with
  | nil => simp [lookupTask] at h
  | cons p rest ih =>
    obtain ⟨k, meta⟩ := p
    by_cases hk : (k == name) = true
    · simp at hk
      simp [taskIds, hk]
    · simp [lookupTask, hk] at h
      simp [taskIds]
      right
      simpa [taskIds] using ih h

/-- A name among the task ids can be looked up. -/
theorem mem_lookupTask (ts : TaskSet) (name : String) (h : name ∈ taskIds ts) :
    ∃ m, lookupTask ts name = some m := by
  induction ts with
  | nil => simp [taskIds] at h
  | cons p rest ih =>
    obtain ⟨k, meta⟩ := p
    by_cases hk : (k == name) = true
    · exact ⟨meta, by simp [lookupTask, hk]⟩
    · simp at hk
      simp [taskIds, Ne.symm hk] at h
      obtain ⟨m, hm⟩ := ih (by simpa [taskIds] using h)
      exact ⟨m, by simp [lookupTask, hk, hm]⟩

/-- For a known task, `task_scoped_for_processing` returns exactly the
boolean computed by `in_scopeB`. -/
theorem task_scoped_eq_of_mem (ts : TaskSet) (name command context : String)
    (h : name ∈ taskIds ts) :
    task_scoped_for_processing ts name command context =
      Except.ok (in_scopeB ts command context name) := by
  obtain ⟨m, hm⟩ := mem_lookupTask ts name h
  rcases hps : m.processingScope with _ | clauses
  · simp [task_scoped_for_processing, in_scopeB, hm, hps]
  · cases hany : clauses.any (scope_clause_matches command context) <;>
      simp [task_scoped_for_processing, in_scopeB, hm, hps, hany]

/-- `in_scopeB` is true only for known tasks. -/
theorem in_scopeB_mem (ts : TaskSet) (command context name : String)
    (h : in_scopeB ts command context name = true) : name ∈ taskIds ts := by
  rcases hl : lookupTask ts name with _ | m
  · rw [in_scopeB, task_scoped_for_processing, hl] at h
    simp at h
  · exact lookupTask_mem ts name m hl

/-- `in_scopeB` reflects a successful, positive scope check. -/
theorem in_scopeB_true_iff (ts : TaskSet) (command context name : String) :
    in_scopeB ts command context name = true ↔
      task_scoped_for_processing ts name command context = Except.ok true := by
  rw [in_scopeB]
  rcases h : task_scoped_for_processing ts name command context with e | b
  · simp
  · cases b <;> simp

/-- Elements are listed before absent elements: a witness prefix. -/
theorem occursBefore_of_mem_not_mem (l m : List String) (D T : String)
    (hD : D ∈ l) (hT : T ∉ l) : occursBefore (l ++ m) D T := by
  refine ⟨l.length, ?_, ?_⟩
  · rw [List.take_left]
    exact hD
  · rw [List.take_left]
    exact hT

/-- `occursBefore` is stable under appending on the right. -/
theorem occursBefore_append (l m : List String) (D T : String)
    (h : occursBefore l D T) : occursBefore (l ++ m) D T := by
  obtain ⟨n, hD, hT⟩ := h
  by_cases hn : n ≤ l.length
  · refine ⟨n, ?_, ?_⟩ <;>
      rw [List.take_append_eq_append_take, Nat.sub_eq_zero_of_le hn, List.take_zero,
        List.append_nil]
    · exact hD
    · exact hT
  · have hlen : l.take n = l := List.take_of_length_le (le_of_not_le hn)
    rw [hlen] at hD hT
    exact occursBefore_of_mem_not_mem l m D T hD hT

/-- Membership in a `take` bounds the first index. -/
theorem indexOf_lt_of_mem_take (a : String) :
    ∀ (l : List String) (n : Nat), a ∈ l.take n → l.indexOf a < n := by
  intro l
  induction l with
  | nil => intro n h; simp at h
  | cons x xs ih =>
    intro n h
    cases n with
    | zero => simp at h
    | succ m =>
      rw [List.take_succ_cons] at h
      by_cases hax : x = a
      · subst hax
        simp [List.indexOf_cons_self]
      · rcases List.mem_cons.mp h with h1 | h1
        · exact absurd h1.symm hax
        · have := ih m h1
          rw [List.indexOf_cons_ne xs hax]
          omega

/-- Absence from a `take` of a present element bounds the first index from
below. -/
theorem le_indexOf_of_not_mem_take (a : String) :
    ∀ (l : List String) (n : Nat), a ∈ l → a ∉ l.take n → n ≤ l.indexOf a := by
  intro l
  induction l with
  | nil => intro n h; simp at h
  | cons x xs ih =>
    intro n hmem h
    cases n with
    | zero => omega
    | succ m =>
      rw [List.take_succ_cons] at h
      have hax : x ≠ a := fun he => h (he ▸ List.mem_cons_self x _)
      have h1 : a ∉ xs.take m := fun hm => h (List.mem_cons_of_mem _ hm)
      have h2 : a ∈ xs := by
        rcases List.mem_cons.mp hmem with h3 | h3
        · exact absurd h3.symm hax
        · exact h3
      have := ih m h2 h1
      rw [List.indexOf_cons_ne xs hax]
      omega

/-- A prefix containing `D` but not `T` orders the first indices. -/
theorem occursBefore_indexOf_lt (l : List String) (D T : String)
    (h : occursBefore l D T) (hT : T ∈ l) : l.indexOf D < l.indexOf T := by
  obtain ⟨n, hD, hTn⟩ := h
  have h1 := indexOf_lt_of_mem_take D l n hD
  have h2 := le_indexOf_of_not_mem_take T l n hT hTn
  omega

/-- `append_new` only appends: the old result is a prefix. -/
theorem append_new_eq_append (l : List String) :
    ∀ result, ∃ news, append_new result l = result ++ news := by
  induction l with
  | nil => intro result; exact ⟨[], by simp [append_new]⟩
  | cons x xs ih =>
    intro result
    rw [append_new]
    by_cases hc : result.contains x = true
    · obtain ⟨news, hn⟩ := ih result
      exact ⟨news, by rw [if_pos hc, hn]⟩
    · obtain ⟨news, hn⟩ := ih (result ++ [x])
      refine ⟨[x] ++ news, ?_⟩
      rw [if_neg hc, hn, List.append_assoc]

/-- Old elements survive `append_new`. -/
theorem mem_append_new_of_mem_left (l : List String) (result : List String) (a : String)
    (h : a ∈ result) : a ∈ append_new result l := by
  obtain ⟨news, hn⟩ := append_new_eq_append l result
  rw [hn]
  exact List.mem_append_left _ h

/-- Elements of the appended list end up in the result. -/
theorem mem_append_new_of_mem (l : List String) :
    ∀ result a, a ∈ l → a ∈ append_new result l := by
  induction l with
  | nil => intro result a h; simp at h
  | cons x xs ih =>
    intro result a h
    rw [append_new]
    rcases List.mem_cons.mp h with h1 | h1
    · subst h1
      by_cases hc : result.contains a = true
      · rw [if_pos hc]
        exact mem_append_new_of_mem_left xs result a ((list_contains_iff result a).mp hc)
      · rw [if_neg hc]
        exact mem_append_new_of_mem_left xs _ a (List.mem_append_right _ (by simp))
    · by_cases hc : result.contains x = true
      · rw [if_pos hc]
        exact ih result a h1
      · rw [if_neg hc]
        exact ih _ a h1

/-- Every element of the result was in one of the two inputs. -/
theorem mem_of_mem_append_new (l : List String) :
    ∀ result a, a ∈ append_new result l → a ∈ result ∨ a ∈ l := by
  induction l with
  | nil => intro result a h; rw [append_new] at h; exact Or.inl h
  | cons x xs ih =>
    intro result a h
    rw [append_new] at h
    by_cases hc : result.contains x = true
    · rw [if_pos hc] at h
      rcases ih result a h with h1 | h1
      · exact Or.inl h1
      · exact Or.inr (List.mem_cons_of_mem _ h1)
    · rw [if_neg hc] at h
      rcases ih _ a h with h1 | h1
      · rcases List.mem_append.mp h1 with h2 | h2
        · exact Or.inl h2
        · simp at h2
          exact Or.inr (h2 ▸ List.mem_cons_self _ _)
      · exact Or.inr (List.mem_cons_of_mem _ h1)

/-- `append_new` preserves duplicate-freedom. -/
theorem append_new_nodup (l : List String) :
    ∀ result, result.Nodup → (append_new result l).Nodup := by
  induction l with
  | nil => intro result h; rw [append_new]; exact h
  | cons x xs ih =>
    intro result h
    rw [append_new]
    by_cases hc : result.contains x = true
    · rw [if_pos hc]
      exact ih result h
    · rw [if_neg hc]
      refine ih _ ?_
      have hx : x ∉ result := fun hm => hc ((list_contains_iff result x).mpr hm)
      simp [List.nodup_append, h, hx]

/-- Relative first-occurrence order survives the `append_new` merge. -/
theorem occursBefore_append_new (l : List String) :
    ∀ result D T, T ∉ result → occursBefore l D T →
      occursBefore (append_new result l) D T := by
  induction l with
  | nil =>
    intro result D T _ h
    obtain ⟨n, hD, _⟩ := h
    simp at hD
  | cons x xs ih =>
    intro result D T hT h
    obtain ⟨n, hD, hTn⟩ := h
    cases n with
    | zero => simp at hD
    | succ m =>
      rw [List.take_succ_cons] at hD hTn
      have hTx : T ≠ x := fun he => hTn (he ▸ List.mem_cons_self x _)
      have hTm : T ∉ xs.take m := fun hm => hTn (List.mem_cons_of_mem _ hm)
      rw [append_new]
      rcases List.mem_cons.mp hD with hDx | hDm
      · subst hDx
        by_cases hc : result.contains D = true
        · rw [if_pos hc]
          obtain ⟨news, hn⟩ := append_new_eq_append xs result
          rw [hn]
          exact occursBefore_of_mem_not_mem result news D T
            ((list_contains_iff result D).mp hc) hT
        · rw [if_neg hc]
          obtain ⟨news, hn⟩ := append_new_eq_append xs (result ++ [D])
          rw [hn]
          refine occursBefore_of_mem_not_mem _ news D T ?_ ?_
          · exact List.mem_append_right _ (by simp)
          · intro hmem
            rcases List.mem_append.mp hmem with h1 | h1
            · exact hT h1
            · simp at h1
              exact hTx h1
      · by_cases hc : result.contains x = true
        · rw [if_pos hc]
          exact ih result D T hT ⟨m, hDm, hTm⟩
        · rw [if_neg hc]
          refine ih _ D T ?_ ⟨m, hDm, hTm⟩
          intro hmem
          rcases List.mem_append.mp hmem with h1 | h1
          · exact hT h1
          · simp at h1
            exact hTx h1

/-- `DepOrdered` is preserved by concatenating two ordered lists. -/
theorem depOrdered_append (ts : TaskSet) (command context : String) (l m : List String)
    (hl : DepOrdered ts command context l) (hm : DepOrdered ts command context m) :
    DepOrdered ts command context (l ++ m) := by
  intro T hT hsT D hD hsD
  by_cases hTl : T ∈ l
  · exact occursBefore_append l m D T (hl T hTl hsT D hD hsD)
  · have hTm : T ∈ m := by
      rcases List.mem_append.mp hT with h1 | h1
      · exact absurd h1 hTl
      · exact h1
    obtain ⟨n, hDn, hTn⟩ := hm T hTm hsT D hD hsD
    refine ⟨l.length + n, ?_, ?_⟩
    · rw [List.take_append_eq_append_take, List.take_of_length_le (by omega),
        Nat.add_sub_cancel_left]
      exact List.mem_append_right _ hDn
    · rw [List.take_append_eq_append_take, List.take_of_length_le (by omega),
        Nat.add_sub_cancel_left]
      intro hmem
      rcases List.mem_append.mp hmem with h1 | h1
      · exact hTl h1
      · exact hTn h1

/-- `DepOrdered` is preserved by the `append_new` merge. -/
theorem depOrdered_append_new (ts : TaskSet) (command context : String)
    (result sub : List String)
    (hres : DepOrdered ts command context result)
    (hsub : DepOrdered ts command context sub) :
    DepOrdered ts command context (append_new result sub) := by
  intro T hT hsT D hD hsD
  by_cases hTr : T ∈ result
  · obtain ⟨news, hn⟩ := append_new_eq_append sub result
    rw [hn]
    exact occursBefore_append result news D T (hres T hTr hsT D hD hsD)
  · have hTs : T ∈ sub := by
      rcases mem_of_mem_append_new sub result T hT with h1 | h1
      · exact absurd h1 hTr
      · exact h1
    exact occursBefore_append_new sub result D T hTr (hsub T hTs hsT D hD hsD)

/-- The per-clause scope check passes when every listed task is in scope. -/
theorem check_clause_tasks_scoped_ok (ts : TaskSet) (command context : String) :
    ∀ l, (∀ d ∈ l, in_scopeB ts command context d = true) →
      check_clause_tasks_scoped ts command context l = Except.ok () := by
  intro l
  induction l with
  | nil => intro _; rfl
  | cons d rest ih =>
    intro h
    have hd := (in_scopeB_true_iff ts command context d).mp (h d (List.mem_cons_self d rest))
    rw [check_clause_tasks_scoped, hd]
    exact ih (fun x hx => h x (List.mem_cons_of_mem d hx))

/-- The clause loop collects exactly the tasks of the active clauses (in
clause order) when every listed task is in scope. -/
theorem collect_dependencies_ok (ts : TaskSet) (command context : String) :
    ∀ clauses, (∀ c ∈ clauses, ∀ d ∈ c.tasks, in_scopeB ts command context d = true) →
      collect_dependencies ts command context clauses =
        Except.ok ((clauses.filter (dep_clause_active command context)).foldr
          (fun c acc => c.tasks ++ acc) []) := by
  intro clauses
  induction clauses with
  | nil => intro _; rfl
  | cons c rest ih =>
    intro h
    rw [collect_dependencies,
      check_clause_tasks_scoped_ok ts command context c.tasks
        (h c (List.mem_cons_self c rest)),
      ih (fun c' hc' d hd => h c' (List.mem_cons_of_mem c hc') d hd)]
    by_cases hact : dep_clause_active command context c = true
    · simp [List.filter_cons, hact]
    · simp at hact
      simp [List.filter_cons, hact]

/-- A task listed in a member clause is in the flattened task list. -/
theorem mem_foldr_tasks_of_mem_clause (cls : List DepClause) (c : DepClause) (d : String)
    (hc : c ∈ cls) (hd : d ∈ c.tasks) :
    d ∈ cls.foldr (fun c acc => c.tasks ++ acc) [] := by
  induction cls with
  | nil => simp at hc
  | cons c' rest ih =>
    rw [List.foldr_cons]
    rcases List.mem_cons.mp hc with h1 | h1
    · subst h1
      exact List.mem_append_left _ hd
    · exact List.mem_append_right _ (ih h1)

/-- Flattening a filtered clause list yields a subset of the full
flattening. -/
theorem mem_foldr_tasks_filter_subset (p : DepClause → Bool) (cls : List DepClause)
    (d : String)
    (h : d ∈ (cls.filter p).foldr (fun c acc => c.tasks ++ acc) []) :
    d ∈ cls.foldr (fun c acc => c.tasks ++ acc) [] := by
  induction cls with
  | nil => simp at h
  | cons c rest ih =>
    rw [List.filter_cons] at h
    by_cases hp : p c = true
    · rw [if_pos hp, List.foldr_cons] at h
      rw [List.foldr_cons]
      rcases List.mem_append.mp h with h1 | h1
      · exact List.mem_append_left _ h1
      · exact List.mem_append_right _ (ih h1)
    · rw [if_neg hp] at h
      rw [List.foldr_cons]
      exact List.mem_append_right _ (ih h)

/-- Active dependencies are listed dependencies. -/
theorem active_deps_subset_listed (ts : TaskSet) (command context name : String)
    (d : String) (h : d ∈ active_deps_of ts command context name) :
    d ∈ listed_deps_of ts name := by
  rw [active_deps_of] at h
  rw [listed_deps_of]
  exact mem_foldr_tasks_filter_subset _ _ _ h

/-- For a task all of whose listed dependencies are in scope,
`get_task_dependencies_as_list_of_task_names` returns exactly the active
dependency list. -/
theorem get_deps_ok (ts : TaskSet) (name command context : String)
    (h : ∀ d ∈ listed_deps_of ts name, in_scopeB ts command context d = true) :
    get_task_dependencies_as_list_of_task_names ts name command context =
      Except.ok (active_deps_of ts command context name) := by
  rcases hl : lookupTask ts name with _ | m
  · rw [get_task_dependencies_as_list_of_task_names, hl, active_deps_of,
      deps_clauses_of, hl]
    rfl
  · rw [get_task_dependencies_as_list_of_task_names, hl, active_deps_of,
      deps_clauses_of, hl]
    refine collect_dependencies_ok ts command context m.dependencies ?_
    intro c hc d hd
    refine h d ?_
    rw [listed_deps_of, deps_clauses_of, hl]
    exact mem_foldr_tasks_of_mem_clause m.dependencies c d hc hd

/-- Correctness of the dependency loop of `_task_ordering`, given the
recursion behaves correctly at the lower fuel: the loop only appends, puts
every dependency of the list into the result, and preserves the dependency
ordering invariant. -/
theorem task_ordering_deps_main (ts : TaskSet) (command context : String)
    (rank : String → Nat) (n : Nat)
    (ih : ∀ cand, cand ∈ taskIds ts → rank cand < n → ∀ cur,
      ∃ extra, _task_ordering ts command context n cur cand =
          some (Except.ok (cur ++ extra)) ∧
        (in_scopeB ts command context cand = true → cand ∈ cur ++ extra) ∧
        (DepOrdered ts command context cur →
          DepOrdered ts command context (cur ++ extra))) :
    ∀ deps, (∀ d ∈ deps, in_scopeB ts command context d = true ∧ rank d < n) →
      ∀ order, ∃ extra,
        task_ordering_deps ts command context (_task_ordering ts command context n)
          order deps = some (Except.ok (order ++ extra)) ∧
        (∀ d ∈ deps, d ∈ order ++ extra) ∧
        (DepOrdered ts command context order →
          DepOrdered ts command context (order ++ extra)) := by
  intro deps
  induction deps with
  | nil =>
    intro _ order
    refine ⟨[], ?_, ?_, ?_⟩
    · simp [task_ordering_deps]
    · intro d hd
      simp at hd
    · intro h
      simpa using h
  | cons d rest ihdeps =>
    intro hall order
    have hd := (hall d (List.mem_cons_self d rest)).1
    have hdrank := (hall d (List.mem_cons_self d rest)).2
    have hdmem : d ∈ taskIds ts := in_scopeB_mem ts command context d hd
    have hsc : task_scoped_for_processing ts d command context = Except.ok true :=
      (in_scopeB_true_iff ts command context d).mp hd
    by_cases hc : order.contains d = true
    · obtain ⟨extra, heq, hmem, hord⟩ :=
        ihdeps (fun x hx => hall x (List.mem_cons_of_mem _ hx)) order
      refine ⟨extra, ?_, ?_, hord⟩
      · simp only [task_ordering_deps, hsc, hc, if_true]
        exact heq
      · intro x hx
        rcases List.mem_cons.mp hx with h1 | h1
        · subst h1
          exact List.mem_append_left _ ((list_contains_iff _ _).mp hc)
        · exact hmem x h1
    · obtain ⟨e1, heq1, hmem1, hord1⟩ := ih d hdmem hdrank order
      obtain ⟨extra2, heq2, hmem2, hord2⟩ :=
        ihdeps (fun x hx => hall x (List.mem_cons_of_mem _ hx)) (order ++ (order ++ e1))
      refine ⟨(order ++ e1) ++ extra2, ?_, ?_, ?_⟩
      · simp only [task_ordering_deps, hsc, hc, if_false, Bool.false_eq_true, heq1]
        rw [heq2]
        simp [List.append_assoc]
      · intro x hx
        rcases List.mem_cons.mp hx with h1 | h1
        · subst h1
          have : x ∈ order ++ e1 := hmem1 hd
          rw [← List.append_assoc]
          exact List.mem_append_left _ (List.mem_append_right _ this)
        · have := hmem2 x h1
          rw [← List.append_assoc]
          exact this
      · intro hordd
        have hsub : DepOrdered ts command context (order ++ e1) := hord1 hordd
        have h2 : DepOrdered ts command context (order ++ (order ++ e1)) :=
          depOrdered_append ts command context order (order ++ e1) hordd hsub
        have h3 := hord2 h2
        rw [← List.append_assoc]
        exact h3

/-- Main correctness of `_task_ordering` under the amended hypotheses: with
enough fuel for the candidate's rank, the call returns `cur` extended, adds
any in-scope candidate, and preserves the dependency ordering invariant. -/
theorem task_ordering_main (ts : TaskSet) (command context : String)
    (rank : String → Nat)
    (hscope : ∀ T ∈ taskIds ts, in_scopeB ts command context T = true →
        ∀ d ∈ listed_deps_of ts T, in_scopeB ts command context d = true)
    (hrank : ∀ T ∈ taskIds ts, in_scopeB ts command context T = true →
        ∀ d ∈ active_deps_of ts command context T,
          in_scopeB ts command context d = true → rank d < rank T) :
    ∀ fuel cand, cand ∈ taskIds ts → rank cand < fuel → ∀ cur,
      ∃ extra, _task_ordering ts command context fuel cur cand =
          some (Except.ok (cur ++ extra)) ∧
        (in_scopeB ts command context cand = true → cand ∈ cur ++ extra) ∧
        (DepOrdered ts command context cur →
          DepOrdered ts command context (cur ++ extra)) := by
  intro fuel
  induction fuel with
  | zero =>
    intro cand _ hr
    exact absurd hr (Nat.not_lt_zero _)
  | succ n ihf =>
    intro cand hcand hr cur
    have hsc := task_scoped_eq_of_mem ts cand command context hcand
    by_cases hin : in_scopeB ts command context cand = true
    · have hsc' : task_scoped_for_processing ts cand command context = Except.ok true := by
        rw [hsc, hin]
      have hdeps_scope := hscope cand hcand hin
      have hdeps_eq := get_deps_ok ts cand command context hdeps_scope
      have hall : ∀ d ∈ active_deps_of ts command context cand,
          in_scopeB ts command context d = true ∧ rank d < n := by
        intro d hdm
        have hds := hdeps_scope d (active_deps_subset_listed ts command context cand d hdm)
        have := hrank cand hcand hin d hdm hds
        exact ⟨hds, by omega⟩
      obtain ⟨e1, heq1, hmem1, hord1⟩ :=
        task_ordering_deps_main ts command context rank n ihf
          (active_deps_of ts command context cand) hall cur
      by_cases hccand : (cur ++ e1).contains cand = true
      · refine ⟨e1, ?_, ?_, hord1⟩
        · simp only [_task_ordering, hsc', hdeps_eq, heq1, hccand, if_true]
        · intro _
          exact (list_contains_iff _ _).mp hccand
      · refine ⟨e1 ++ [cand], ?_, ?_, ?_⟩
        · simp only [_task_ordering, hsc', hdeps_eq, heq1, hccand, if_false,
            Bool.false_eq_true]
          simp [List.append_assoc]
        · intro _
          simp
        · intro hordc
          have h1 := hord1 hordc
          rw [← List.append_assoc]
          intro T hT hsT D hD hsD
          by_cases hTc : T = cand
          · subst hTc
            have hDmem : D ∈ cur ++ e1 := hmem1 D hD
            have hcnot : T ∉ cur ++ e1 := fun hm => hccand ((list_contains_iff _ _).mpr hm)
            exact occursBefore_of_mem_not_mem _ _ D T hDmem hcnot
          · have hTm : T ∈ cur ++ e1 := by
              rcases List.mem_append.mp hT with h2 | h2
              · exact h2
              · simp at h2
                exact absurd h2 hTc
            exact occursBefore_append _ _ D T (h1 T hTm hsT D hD hsD)
    · have hfalse : in_scopeB ts command context cand = false := by
        cases hb : in_scopeB ts command context cand
        · rfl
        · exact absurd hb hin
      have hsc' : task_scoped_for_processing ts cand command context = Except.ok false := by
        rw [hsc, hfalse]
      refine ⟨[], ?_, ?_, ?_⟩
      · simp only [_task_ordering, hsc']
        simp
      · intro h
        rw [h] at hfalse
        cases hfalse
      · intro h
        simpa using h

/-- Correctness of the outer loop of `get_task_names_in_order`: it keeps the
result duplicate-free and dependency-ordered, keeps everything already in the
result, and puts every in-scope name of the remaining list into the final
result. -/
theorem order_loop_main (ts : TaskSet) (command context : String)
    (rank : String → Nat) (fuel : Nat)
    (hscope : ∀ T ∈ taskIds ts, in_scopeB ts command context T = true →
        ∀ d ∈ listed_deps_of ts T, in_scopeB ts command context d = true)
    (hrank : ∀ T ∈ taskIds ts, in_scopeB ts command context T = true →
        ∀ d ∈ active_deps_of ts command context T,
          in_scopeB ts command context d = true → rank d < rank T)
    (hfuel : ∀ T ∈ taskIds ts, rank T < fuel) :
    ∀ names, (∀ m ∈ names, m ∈ taskIds ts) →
      ∀ result, result.Nodup → DepOrdered ts command context result →
        ∃ final, get_task_names_in_order_loop ts command context fuel result names =
            some (Except.ok final) ∧
          final.Nodup ∧ DepOrdered ts command context final ∧
          (∀ m ∈ result, m ∈ final) ∧
          (∀ m ∈ names, in_scopeB ts command context m = true → m ∈ final) := by
  intro names
  induction names with
  | nil =>
    intro _ result hnd hord
    refine ⟨result, ?_, hnd, hord, fun m hm => hm, ?_⟩
    · simp [get_task_names_in_order_loop]
    · intro m hm
      simp at hm
  | cons name rest ihn =>
    intro hmemall result hnd hord
    have hnmem : name ∈ taskIds ts := hmemall name (List.mem_cons_self name rest)
    by_cases hc : result.contains name = true
    · obtain ⟨final, heq, hfnd, hford, hkeep, hin⟩ :=
        ihn (fun m hm => hmemall m (List.mem_cons_of_mem _ hm)) result hnd hord
      refine ⟨final, ?_, hfnd, hford, hkeep, ?_⟩
      · simp only [get_task_names_in_order_loop, hc, if_true]
        exact heq
      · intro m hm hsm
        rcases List.mem_cons.mp hm with h1 | h1
        · subst h1
          exact hkeep m ((list_contains_iff _ _).mp hc)
        · exact hin m h1 hsm
    · obtain ⟨e1, heq1, hmem1, hord1⟩ :=
        task_ordering_main ts command context rank hscope hrank fuel name hnmem
          (hfuel name hnmem) result
      have hsubord : DepOrdered ts command context (result ++ e1) := hord1 hord
      obtain ⟨final, heq, hfnd, hford, hkeep, hin⟩ :=
        ihn (fun m hm => hmemall m (List.mem_cons_of_mem _ hm))
          (append_new result (result ++ e1))
          (append_new_nodup (result ++ e1) result hnd)
          (depOrdered_append_new ts command context result (result ++ e1) hord hsubord)
      refine ⟨final, ?_, hfnd, hford, ?_, ?_⟩
      · simp only [get_task_names_in_order_loop, hc, if_false, Bool.false_eq_true, heq1]
        exact heq
      · intro m hm
        exact hkeep m (mem_append_new_of_mem_left _ result m hm)
      · intro m hm hsm
        rcases List.mem_cons.mp hm with h1 | h1
        · subst h1
          exact hkeep m (mem_append_new_of_mem _ result m (hmem1 hsm))
        · exact hin m h1 hsm

/-- C1 amended: for every task set in which every dependency id names a task
in the set, the active in-scope dependency graph is acyclic (witnessed by a
rank function decreasing along active in-scope edges), and every task listed
in any dependency clause — active or not — of every in-scope task is itself
in scope, `get_task_names_in_order` returns (for any fuel bound above every
rank) a duplicate-free sequence containing every in-scope task, in which
every active dependency `D` of an in-scope task `T` appears at a strictly
smaller index than `T`. -/
theorem get_task_names_in_order_correct (ts : TaskSet) (command context : String)
    (rank : String → Nat) (fuel : Nat)
    (_hnamed : ∀ T ∈ taskIds ts, ∀ d ∈ listed_deps_of ts T, d ∈ taskIds ts)
    (hscope : ∀ T ∈ taskIds ts, in_scopeB ts command context T = true →
        ∀ d ∈ listed_deps_of ts T, in_scopeB ts command context d = true)
    (hrank : ∀ T ∈ taskIds ts, in_scopeB ts command context T = true →
        ∀ d ∈ active_deps_of ts command context T,
          in_scopeB ts command context d = true → rank d < rank T)
    (hfuel : ∀ T ∈ taskIds ts, rank T < fuel) :
    ∃ l, get_task_names_in_order ts fuel command context = some (Except.ok l) ∧
      l.Nodup ∧
      (∀ T ∈ taskIds ts, in_scopeB ts command context T = true → T ∈ l) ∧
      (∀ T ∈ taskIds ts, in_scopeB ts command context T = true →
        ∀ D ∈ active_deps_of ts command context T, l.indexOf D < l.indexOf T) := by
  have hnil : DepOrdered ts command context [] := by
    intro T hT
    exact absurd hT (List.not_mem_nil T)
  obtain ⟨final, heq, hnd, hord, _, hin⟩ :=
    order_loop_main ts command context rank fuel hscope hrank hfuel (taskIds ts)
      (fun m hm => hm) [] (by simp) hnil
  refine ⟨final, ?_, hnd, hin, ?_⟩
  · rw [get_task_names_in_order]
    exact heq
  · intro T hT hsT D hD
    have hsD : in_scopeB ts command context D = true :=
      hscope T hT hsT D (active_deps_subset_listed ts command context T D hD)
    have hTf : T ∈ final := hin T hT hsT
    exact occursBefore_indexOf_lt final D T (hord T hTf hsT D hD hsD) hTf

/-- Witness for C1 on a concrete two-task set (`t2` depends on `t1`). -/
theorem get_task_names_in_order_correct_witness :
    ∃ l, get_task_names_in_order
        [("t1", { dependencies := [], processingScope := none }),
         ("t2", { dependencies := [{ tasks := ["t1"], commands := none, contexts := none }],
                  processingScope := none })] 2 "c1" "x1" = some (Except.ok l) ∧
      l.Nodup ∧
      (∀ T ∈ taskIds
          [("t1", { dependencies := [], processingScope := none }),
           ("t2", { dependencies := [{ tasks := ["t1"], commands := none, contexts := none }],
                    processingScope := none })],
        in_scopeB
          [("t1", { dependencies := [], processingScope := none }),
           ("t2", { dependencies := [{ tasks := ["t1"], commands := none, contexts := none }],
                    processingScope := none })] "c1" "x1" T = true → T ∈ l) ∧
      (∀ T ∈ taskIds
          [("t1", { dependencies := [], processingScope := none }),
           ("t2", { dependencies := [{ tasks := ["t1"], commands := none, contexts := none }],
                    processingScope := none })],
        in_scopeB
          [("t1", { dependencies := [], processingScope := none }),
           ("t2", { dependencies := [{ tasks := ["t1"], commands := none, contexts := none }],
                    processingScope := none })] "c1" "x1" T = true →
        ∀ D ∈ active_deps_of
          [("t1", { dependencies := [], processingScope := none }),
           ("t2", { dependencies := [{ tasks := ["t1"], commands := none, contexts := none }],
                    processingScope := none })] "c1" "x1" T,
          l.indexOf D < l.indexOf T) := by
  exact get_task_names_in_order_correct _ "c1" "x1"
    (fun n => if n == "t2" then 1 else 0) 2 (by decide) (by decide) (by decide) (by decide)

/-- Witness for C10 at concrete inputs. -/
theorem get_variable_missing_raises_present_returns_witness :
    get_variable [] "x" false = Except.error ("Variable \"" ++ "x" ++ "\" not found") ∧
    get_variable [("a", Value.vstr "1")] "a" false =
      Except.ok (Value.vstr "1", [("a", Value.vstr "1")]) := by
  constructor
  · exact (get_variable_missing_raises_present_returns [] "x").1 (by decide)
  · exact (get_variable_missing_raises_present_returns [("a", Value.vstr "1")] "a").2
      (Value.vstr "1") (by decide)

end Operarius
